import Mathlib

/-!
# Map editor: layer compositing, heatmap synthesis and pointer routing

A shallow embedding of `src/map.jsx` (the `MapEditor` component).  The component state
becomes the record `State`; each handler becomes a function from the state it closes over
to the state after the updates it queues; `drawLayers` and `generateHeatmap` become
functions producing the list of canvas calls they issue.

Conventions of the embedding:

* JavaScript numbers that only ever hold pointer coordinates are exact rationals.
  Numbers that come out of `parseFloat` and of the division in `generateHeatmap` are
  `JSNum`: an exact rational, one of the two infinities, or NaN.  Rounding to double
  precision and the sign of zero are not modelled, nor is the overflow of a double to an
  infinity or its underflow to zero: the literal `1e400` is a rational here.  `Math.hypot`
  is exact, and the identity of two pins is the equality of their fields.
* A field that an object may lack (`paths`, `pins`, `image`) is an `Option`; using a lacking
  field the way the source does raises the `TypeError` JavaScript raises.
* Canvas calls are recorded as issued.  Each call is taken to return normally, but for
  `addColorStop`, which raises a `SyntaxError` when the colour string it gets is no CSS
  colour: that is the case when the alpha printed into `rgba(255, 0, 0, ...)` is `NaN` or
  an infinity.
-/

namespace MapEditor

/-! ## JavaScript numbers -/

/-- A JavaScript number: NaN, an infinity, or a finite value held exactly. -/
inductive JSNum where
  | nan
  | negInf
  | fin (q : ℚ)
  | posInf
  deriving DecidableEq

namespace JSNum

/-- Finite values only. -/
def isFinite : JSNum → Bool
  | fin _ => true
  | _ => false

/-- The rational held by a finite value, 0 for the others. -/
def toRat : JSNum → ℚ
  | fin q => q
  | _ => 0

/-- JavaScript `ToBoolean` on a number: NaN and zero are falsy. -/
def toBoolean : JSNum → Bool
  | nan => false
  | fin q => decide (q ≠ 0)
  | _ => true

/-- The expression `a || b` on numbers. -/
def orElse (a b : JSNum) : JSNum :=
  if a.toBoolean then a else b

/-- The expression `a - b`. -/
def sub : JSNum → JSNum → JSNum
  | fin a, fin b => fin (a - b)
  | fin _, posInf => negInf
  | fin _, negInf => posInf
  | posInf, fin _ => posInf
  | posInf, negInf => posInf
  | negInf, fin _ => negInf
  | negInf, posInf => negInf
  | _, _ => nan

/-- The expression `a / b` (a zero divisor is taken as positive zero). -/
def div : JSNum → JSNum → JSNum
  | fin a, fin b =>
    if b = 0 then (if a = 0 then nan else if 0 < a then posInf else negInf)
    else fin (a / b)
  | fin _, posInf => fin 0
  | fin _, negInf => fin 0
  | posInf, fin b => if 0 ≤ b then posInf else negInf
  | negInf, fin b => if 0 ≤ b then negInf else posInf
  | _, _ => nan

/-- The expression `a * b`. -/
def mul : JSNum → JSNum → JSNum
  | fin a, fin b => fin (a * b)
  | posInf, fin b => if b = 0 then nan else if 0 < b then posInf else negInf
  | negInf, fin b => if b = 0 then nan else if 0 < b then negInf else posInf
  | fin a, posInf => if a = 0 then nan else if 0 < a then posInf else negInf
  | fin a, negInf => if a = 0 then nan else if 0 < a then negInf else posInf
  | posInf, posInf => posInf
  | negInf, negInf => posInf
  | posInf, negInf => negInf
  | negInf, posInf => negInf
  | _, _ => nan

/-- The comparison `a < b`; false as soon as one side is NaN. -/
def lt : JSNum → JSNum → Bool
  | fin a, fin b => decide (a < b)
  | negInf, fin _ => true
  | negInf, posInf => true
  | fin _, posInf => true
  | _, _ => false

/-- Two-argument step of `Math.max`: NaN is contagious. -/
def max2 : JSNum → JSNum → JSNum
  | nan, _ => nan
  | _, nan => nan
  | a, b => if lt a b then b else a

/-- Two-argument step of `Math.min`: NaN is contagious. -/
def min2 : JSNum → JSNum → JSNum
  | nan, _ => nan
  | _, nan => nan
  | a, b => if lt b a then b else a

/-- The call `Math.max(...xs)`; `-Infinity` for no argument. -/
def mathMax (xs : List JSNum) : JSNum :=
  xs.foldl max2 negInf

/-- The call `Math.min(...xs)`; `Infinity` for no argument. -/
def mathMin (xs : List JSNum) : JSNum :=
  xs.foldl min2 posInf

end JSNum

/-! ## `parseFloat` -/

/-- White space and line terminators that `parseFloat` skips at the start of its input. -/
def isStrWhiteSpace (c : Char) : Bool :=
  let n := c.toNat
  n = 0x09 || n = 0x0A || n = 0x0B || n = 0x0C || n = 0x0D || n = 0x20 || n = 0xA0 ||
  n = 0x1680 || (0x2000 ≤ n && n ≤ 0x200A) || n = 0x2028 || n = 0x2029 || n = 0x202F ||
  n = 0x205F || n = 0x3000 || n = 0xFEFF

/-- A decimal digit. -/
def isDecimalDigit (c : Char) : Bool :=
  48 ≤ c.toNat && c.toNat ≤ 57

/-- Value of a run of decimal digits. -/
def digitsValue (ds : List Char) : ℕ :=
  ds.foldl (fun n c => 10 * n + (c.toNat - 48)) 0

/-- Value of the longest `ExponentPart` at the head of the input, 0 when there is none. -/
def exponentValue : List Char → ℤ
  | [] => 0
  | c :: rest =>
    if c = 'e' ∨ c = 'E' then
      match rest with
      | '+' :: r =>
        let ds := r.takeWhile isDecimalDigit
        if ds = [] then 0 else (digitsValue ds : ℤ)
      | '-' :: r =>
        let ds := r.takeWhile isDecimalDigit
        if ds = [] then 0 else - (digitsValue ds : ℤ)
      | r =>
        let ds := r.takeWhile isDecimalDigit
        if ds = [] then 0 else (digitsValue ds : ℤ)
    else 0

/-- A decimal literal as `parseFloat` reads it, before its value is taken. -/
inductive StrLiteral where
  | infinity
  | decimal (intPart fracPart fracLen : ℕ) (exponent : ℤ)
  deriving DecidableEq

/-- The longest `StrUnsignedDecimalLiteral` at the head of the input, if any. -/
def unsignedLiteral (cs : List Char) : Option StrLiteral :=
  if "Infinity".toList.isPrefixOf cs then some StrLiteral.infinity
  else
    let ip := cs.takeWhile isDecimalDigit
    match cs.dropWhile isDecimalDigit with
    | '.' :: r =>
      let fp := r.takeWhile isDecimalDigit
      if ip = [] ∧ fp = [] then none
      else some (StrLiteral.decimal (digitsValue ip) (digitsValue fp) fp.length
        (exponentValue (r.dropWhile isDecimalDigit)))
    | r =>
      if ip = [] then none
      else some (StrLiteral.decimal (digitsValue ip) 0 0 (exponentValue r))

/-- The longest `StrDecimalLiteral` at the head of a string, after the leading white space:
whether it carries a minus sign, and the unsigned literal. -/
def readLiteral (s : String) : Option (Bool × StrLiteral) :=
  match s.toList.dropWhile isStrWhiteSpace with
  | '+' :: r => (unsignedLiteral r).map (fun l => (false, l))
  | '-' :: r => (unsignedLiteral r).map (fun l => (true, l))
  | r => (unsignedLiteral r).map (fun l => (false, l))

/-- Numeric value of an unsigned literal. -/
def StrLiteral.value : StrLiteral → JSNum
  | StrLiteral.infinity => JSNum.posInf
  | StrLiteral.decimal ip fp fl e =>
    JSNum.fin (((ip : ℚ) + (fp : ℚ) / (10 : ℚ) ^ fl) * (10 : ℚ) ^ e)

/-- Change of sign. -/
def JSNum.neg : JSNum → JSNum
  | JSNum.fin q => JSNum.fin (-q)
  | JSNum.posInf => JSNum.negInf
  | JSNum.negInf => JSNum.posInf
  | JSNum.nan => JSNum.nan

/-- The builtin `parseFloat` on a string: skip leading white space, read the longest
decimal literal at the head, NaN when there is none. -/
def parseFloat (s : String) : JSNum :=
  match readLiteral s with
  | none => JSNum.nan
  | some (false, l) => l.value
  | some (true, l) => l.value.neg

/-! ## Data model -/

/-- A pin: the record with fields `x`, `y` and `value`, the value as typed into the prompt. -/
structure Pin where
  x : ℚ
  y : ℚ
  value : String
  deriving DecidableEq

/-- A point of a stroke.  The press point carries no `color`; points appended by a move do. -/
structure Point where
  x : ℚ
  y : ℚ
  color : Option String
  deriving DecidableEq

/-- A decoded image, of which the code reads only the size. -/
structure Image where
  width : ℕ
  height : ℕ
  deriving DecidableEq

/-- The three values the `type` field of a layer takes. -/
inductive LayerType where
  | image
  | drawing
  | pins
  deriving DecidableEq

/-- A layer record.  `paths`, `pins` and `image` are absent on some layers: `addLayer` sets
`paths` and `pins` only, the upload handler sets `image` only. -/
structure Layer where
  id : ℕ
  type : LayerType
  visible : Bool
  opacity : ℕ
  x : ℚ
  y : ℚ
  paths : Option (List (List Point))
  pins : Option (List Pin)
  image : Option Image
  deriving DecidableEq

/-- The three values of `selectedTool`. -/
inductive Tool where
  | move
  | draw
  | pin
  deriving DecidableEq

/-- The component state: one field per `useState` hook (the notification apart). -/
structure State where
  layers : List Layer
  activeLayerId : Option ℕ
  selectedTool : Tool
  isDrawing : Bool
  lastPoint : Option (ℚ × ℚ)
  draggedLayer : Option ℕ
  dropTarget : Option ℕ
  hoveredPin : Option Pin
  currentColor : String
  currentOpacity : ℕ
  showHeatmap : Bool
  deriving DecidableEq

/-- The state of a freshly mounted component. -/
def State.initial : State where
  layers := []
  activeLayerId := none
  selectedTool := Tool.move
  isDrawing := false
  lastPoint := none
  draggedLayer := none
  dropTarget := none
  hoveredPin := none
  currentColor := "#000000"
  currentOpacity := 100
  showHeatmap := false

/-- Errors a handler can raise. -/
inductive JSError where
  | typeError
  | syntaxError
  deriving DecidableEq

/-- What running a handler leaves behind: the next state, and the error if the handler raised
one.  State updates queued before the error are still applied, so `threw` carries the state
they lead to. -/
inductive Outcome where
  | done (s : State)
  | threw (err : JSError) (s : State)
  deriving DecidableEq

/-- The state after the handler, raised error or not. -/
def Outcome.state : Outcome → State
  | Outcome.done s => s
  | Outcome.threw _ s => s

/-- The methods `Array.prototype.map` and `forEach` with a callback that may raise: the first
error aborts the loop. -/
def mapThrowing {α β : Type} (f : α → Except JSError β) : List α → Except JSError (List β)
  | [] => Except.ok []
  | a :: rest =>
    match f a with
    | Except.error err => Except.error err
    | Except.ok b =>
      match mapThrowing f rest with
      | Except.error err => Except.error err
      | Except.ok bs => Except.ok (b :: bs)

/-! ## Heatmap synthesizer -/

/-- The expression `parseFloat(pin.value) || 0`. -/
def pinValue (pin : Pin) : JSNum :=
  JSNum.orElse (parseFloat pin.value) (JSNum.fin 0)

/-- The constant `maxValue` of `generateHeatmap`. -/
def maxValue (pins : List Pin) : JSNum :=
  JSNum.mathMax (pins.map pinValue)

/-- The constant `minValue` of `generateHeatmap`. -/
def minValue (pins : List Pin) : JSNum :=
  JSNum.mathMin (pins.map pinValue)

/-- The constant `normalizedValue` computed for one pin inside `generateHeatmap`. -/
def normalizedValue (pins : List Pin) (pin : Pin) : JSNum :=
  JSNum.div (JSNum.sub (pinValue pin) (minValue pins))
    (JSNum.sub (maxValue pins) (minValue pins))

/-- One radial gradient filled into the off-screen buffer: the two circles of
`createRadialGradient`, the alpha of the red colour stop at offset 0 and at offset 1, and the
rectangle filled. -/
structure GradientFill where
  cx : ℚ
  cy : ℚ
  innerRadius : ℚ
  outerRadius : ℚ
  centreAlpha : JSNum
  edgeAlpha : JSNum
  rectX : ℚ
  rectY : ℚ
  rectW : ℚ
  rectH : ℚ
  deriving DecidableEq

/-- The body of `pins.forEach` in `generateHeatmap`, for one pin. -/
def heatmapFill (pins : List Pin) (pin : Pin) : GradientFill where
  cx := pin.x
  cy := pin.y
  innerRadius := 0
  outerRadius := 50
  centreAlpha := JSNum.mul (normalizedValue pins pin) (JSNum.fin (6 / 10))
  edgeAlpha := JSNum.fin 0
  rectX := pin.x - 50
  rectY := pin.y - 50
  rectW := 50 * 2
  rectH := 50 * 2

/-! ## Compositor -/

/-- The size of the canvas element. -/
structure Canvas where
  width : ℚ
  height : ℚ
  deriving DecidableEq

/-- A call on the 2D context of the main canvas, or an assignment to one of its properties. -/
inductive CanvasOp where
  | clearRect (x y w h : ℚ)
  | setGlobalAlpha (a : ℚ)
  | drawImage (img : Image) (x y w h : ℚ)
  | beginPath
  | setStrokeStyle (color : String)
  | setLineWidth (w : ℚ)
  | moveTo (x y : ℚ)
  | lineTo (x y : ℚ)
  | stroke
  | arc (x y r : ℚ)
  | setFillStyle (color : String)
  | fill
  | setFont (font : String)
  | fillText (text : String) (x y : ℚ)
  | drawBuffer (fills : List GradientFill) (x y : ℚ)
  deriving DecidableEq

/-- The body of `pins.forEach` in `generateHeatmap`, for one pin, with the error it can raise:
`addColorStop(0, ...)` raises a SyntaxError when the alpha printed into the colour string is
NaN or an infinity. -/
def heatmapStop (pins : List Pin) (pin : Pin) : Except JSError GradientFill :=
  if (heatmapFill pins pin).centreAlpha.isFinite = true then Except.ok (heatmapFill pins pin)
  else Except.error JSError.syntaxError

/-- The function `generateHeatmap(ctx, pins)`: the calls it issues on the main context when
the loop over the pins runs to its end.  The off-screen buffer it composites is carried by
`drawBuffer`. -/
def generateHeatmap (pins : List Pin) : Except JSError (List CanvasOp) :=
  match mapThrowing (heatmapStop pins) pins with
  | Except.error err => Except.error err
  | Except.ok fills =>
    Except.ok [CanvasOp.setGlobalAlpha (7 / 10),
      CanvasOp.drawBuffer fills 0 0,
      CanvasOp.setGlobalAlpha 1]

/-- The expression `path.color`: a stroke is an array of points, and an array has no `color`
property of its own, whatever its points carry. -/
def pathColor (_path : List Point) : Option String :=
  none

/-- The body of `layer.paths.forEach`, for one stroke.  Reading `path[0].x` on an empty stroke
raises. -/
def drawPath (path : List Point) : Except JSError (List CanvasOp) :=
  match path with
  | [] => Except.error JSError.typeError
  | p0 :: _ =>
    Except.ok ([CanvasOp.beginPath,
        CanvasOp.setStrokeStyle ((pathColor path).getD "#000000"),
        CanvasOp.setLineWidth 2,
        CanvasOp.moveTo p0.x p0.y]
      ++ path.map (fun point => CanvasOp.lineTo point.x point.y)
      ++ [CanvasOp.stroke])

/-- The loop `layer.paths.forEach`. -/
def drawPaths : List (List Point) → Except JSError (List CanvasOp)
  | [] => Except.ok []
  | path :: rest =>
    match drawPath path with
    | Except.error err => Except.error err
    | Except.ok ops =>
      match drawPaths rest with
      | Except.error err => Except.error err
      | Except.ok more => Except.ok (ops ++ more)

/-- The body of `layer.pins.forEach`, for one pin.  The source compares `hoveredPin` with the
pin by identity; here pins are compared by their fields. -/
def drawPin (s : State) (pin : Pin) : List CanvasOp :=
  [CanvasOp.beginPath, CanvasOp.arc pin.x pin.y 5, CanvasOp.setFillStyle "red",
   CanvasOp.fill, CanvasOp.stroke]
  ++ (if s.hoveredPin = some pin ∨ s.showHeatmap = false then
        [CanvasOp.setFillStyle "black", CanvasOp.setFont "12px Arial",
         CanvasOp.fillText pin.value (pin.x + 10) (pin.y + 4)]
      else [])

/-- What `drawLayers` does for a visible layer after it has set the global alpha: the chain of
tests on `layer.type`. -/
def renderLayer (s : State) (canvas : Canvas) (layer : Layer) : Except JSError (List CanvasOp) :=
  match layer.type, layer.image with
  | LayerType.image, some img =>
    Except.ok [CanvasOp.drawImage img 0 0 canvas.width canvas.height]
  | LayerType.image, none => Except.ok []
  | LayerType.drawing, _ =>
    match layer.paths with
    | none => Except.error JSError.typeError
    | some paths => drawPaths paths
  | LayerType.pins, _ =>
    match layer.pins with
    | none => Except.error JSError.typeError
    | some pins =>
      if s.showHeatmap = true ∧ pins.length > 0 then
        match generateHeatmap pins with
        | Except.error err => Except.error err
        | Except.ok overlay => Except.ok ((pins.map (drawPin s)).flatten ++ overlay)
      else Except.ok (pins.map (drawPin s)).flatten

/-- The body of the `forEach` of `drawLayers`, for one layer. -/
def drawLayer (s : State) (canvas : Canvas) (layer : Layer) : Except JSError (List CanvasOp) :=
  if layer.visible = true then
    match renderLayer s canvas layer with
    | Except.error err => Except.error err
    | Except.ok ops => Except.ok (CanvasOp.setGlobalAlpha ((layer.opacity : ℚ) / 100) :: ops)
  else Except.ok []

/-- The `forEach` of `drawLayers` over the layers still to draw, `log` being the calls issued
so far. -/
def drawLayersLoop (s : State) (canvas : Canvas) :
    List Layer → List CanvasOp → Except JSError (List CanvasOp)
  | [], log => Except.ok log
  | layer :: rest, log =>
    match drawLayer s canvas layer with
    | Except.error err => Except.error err
    | Except.ok ops => drawLayersLoop s canvas rest (log ++ ops)

/-- The function `drawLayers`: the calls a redraw that runs to its end issues, in order. -/
def drawLayers (s : State) (canvas : Canvas) : Except JSError (List CanvasOp) :=
  drawLayersLoop s canvas s.layers.reverse [CanvasOp.clearRect 0 0 canvas.width canvas.height]

/-- The calls that put pixels on the main canvas under the global alpha. -/
def CanvasOp.isPaint : CanvasOp → Bool
  | CanvasOp.drawImage _ _ _ _ _ => true
  | CanvasOp.stroke => true
  | CanvasOp.fill => true
  | CanvasOp.fillText _ _ _ => true
  | CanvasOp.drawBuffer _ _ _ => true
  | _ => false

/-- The assignments to `globalAlpha`. -/
def CanvasOp.setsAlpha : CanvasOp → Bool
  | CanvasOp.setGlobalAlpha _ => true
  | _ => false

/-- The setter of `globalAlpha`: a value outside the range 0 to 1 is ignored. -/
def assignGlobalAlpha (current a : ℚ) : ℚ :=
  if 0 ≤ a ∧ a ≤ 1 then a else current

/-- The paint calls of a list of calls, each with the global alpha in force when it is issued,
`alpha` being the global alpha before the first call. -/
def paints : ℚ → List CanvasOp → List (CanvasOp × ℚ)
  | _, [] => []
  | alpha, CanvasOp.setGlobalAlpha a :: rest => paints (assignGlobalAlpha alpha a) rest
  | alpha, op :: rest =>
    if op.isPaint then (op, alpha) :: paints alpha rest else paints alpha rest

/-- The calls `drawLayers` issues to render a visible layer once the global alpha is set; none
when rendering the layer raises. -/
def layerOps (s : State) (canvas : Canvas) (layer : Layer) : List CanvasOp :=
  match renderLayer s canvas layer with
  | Except.ok ops => ops
  | Except.error _ => []

/-- A layer that `drawLayers` can render without raising a TypeError: a drawing layer has
`paths` and no empty stroke, a pin-set layer has `pins`. -/
def Layer.renderable (layer : Layer) : Bool :=
  match layer.type with
  | LayerType.image => true
  | LayerType.drawing =>
    match layer.paths with
    | none => false
    | some paths => paths.all (fun path => !path.isEmpty)
  | LayerType.pins => layer.pins.isSome

/-- A layer whose heatmap, if one is drawn, is built without a SyntaxError: heatmap mode is
off, or the layer is no pin-set layer, or the centre alpha of every pin is a finite number. -/
def Layer.heatmapSafe (showHeatmap : Bool) (layer : Layer) : Bool :=
  match layer.type, layer.pins with
  | LayerType.pins, some pins =>
    !showHeatmap || pins.all (fun pin => (heatmapFill pins pin).centreAlpha.isFinite)
  | _, _ => true

/-! ## Layer store -/

/-- The function `addLayer(type)`; `now` is what `Date.now()` returns. -/
def addLayer (s : State) (now : ℕ) (type : LayerType) : State :=
  let newLayer : Layer :=
    { id := now, type := type, visible := true, opacity := 100, x := 0, y := 0,
      paths := some [], pins := some [], image := none }
  { s with layers := newLayer :: s.layers, activeLayerId := some now }

/-- The `img.onload` callback set up by `handleFileUpload`, run in state `s`.  The callback
closes over the layer list of the render in which the file was picked, `pickedLayers`. -/
def handleFileUpload (s : State) (pickedLayers : List Layer) (now : ℕ) (img : Image) : State :=
  let newLayer : Layer :=
    { id := now, type := LayerType.image, visible := true, opacity := 100, x := 0, y := 0,
      paths := none, pins := none, image := some img }
  { s with layers := newLayer :: pickedLayers, activeLayerId := some now }

/-- The click handler of a layer row: `setActiveLayerId(layer.id)`. -/
def selectLayer (s : State) (layerId : ℕ) : State :=
  { s with activeLayerId := some layerId }

/-- The click handler of a tool button: `setSelectedTool(tool)`. -/
def selectTool (s : State) (tool : Tool) : State :=
  { s with selectedTool := tool }

/-- The change handler of the colour input: `setCurrentColor(value)`. -/
def selectColor (s : State) (color : String) : State :=
  { s with currentColor := color }

/-- The change handler of the opacity slider. -/
def changeOpacity (s : State) (value : ℕ) : State :=
  { s with
    currentOpacity := value
    layers := s.layers.map (fun layer =>
      if s.activeLayerId = some layer.id then { layer with opacity := value } else layer) }

/-- The change handler of the heatmap checkbox. -/
def toggleHeatmap (s : State) (checked : Bool) : State :=
  { s with showHeatmap := checked }

/-- The function `toggleLayerVisibility(layerId)`. -/
def toggleLayerVisibility (s : State) (layerId : ℕ) : State :=
  { s with layers := s.layers.map (fun layer =>
      if layer.id = layerId then { layer with visible := !layer.visible } else layer) }

/-- The function `deleteLayer(layerId)`. -/
def deleteLayer (s : State) (layerId : ℕ) : State :=
  { s with
    layers := s.layers.filter (fun layer => decide (layer.id ≠ layerId))
    activeLayerId := if s.activeLayerId = some layerId then none else s.activeLayerId }

/-- The function `handleDragStart(e, layerId)`. -/
def handleDragStart (s : State) (layerId : ℕ) : State :=
  { s with draggedLayer := some layerId }

/-- The function `handleDragOver(e, targetId)`. -/
def handleDragOver (s : State) (targetId : ℕ) : State :=
  { s with dropTarget := some targetId }

/-- Search of `Array.prototype.findIndex` from position `i` on. -/
def findIndexFrom {α : Type} (p : α → Bool) : List α → ℕ → ℤ
  | [], _ => -1
  | a :: rest, i => if p a then (i : ℤ) else findIndexFrom p rest (i + 1)

/-- The method `Array.prototype.findIndex`: the first index whose element passes, else -1. -/
def findIndex {α : Type} (p : α → Bool) (xs : List α) : ℤ :=
  findIndexFrom p xs 0

/-- The position at which `Array.prototype.splice` starts, for an array of length `len`: a
negative `start` counts from the end, and the result is clamped to the array. -/
def spliceStart (len : ℕ) (start : ℤ) : ℕ :=
  if start < 0 then ((len : ℤ) + start).toNat else min start.toNat len

/-- The function `handleDrop(e, targetId)`.  With no layer at all `splice` removes nothing;
no row exists to drop onto then, and the list is left empty. -/
def handleDrop (s : State) (targetId : ℕ) : State :=
  if s.draggedLayer = some targetId then s
  else
    let draggedIndex := findIndex (fun l => decide (s.draggedLayer = some l.id)) s.layers
    let targetIndex := findIndex (fun l => decide (l.id = targetId)) s.layers
    let k := spliceStart s.layers.length draggedIndex
    let afterRemoval := s.layers.eraseIdx k
    let newLayers :=
      match s.layers[k]? with
      | none => afterRemoval
      | some removed =>
        afterRemoval.insertIdx (spliceStart afterRemoval.length targetIndex) removed
    { s with layers := newLayers, draggedLayer := none, dropTarget := none }

/-! ## Pointer router -/

/-- The fields of a mouse event that the handlers read. -/
structure MouseEvent where
  clientX : ℚ
  clientY : ℚ
  deriving DecidableEq

/-- The fields of the canvas bounding rectangle that the handlers read. -/
structure Rect where
  left : ℚ
  top : ℚ
  deriving DecidableEq

/-- The callback of `layers.map` in the draw branch of `handleMouseDown`.  Spreading
`layer.paths` raises when the layer has no `paths`. -/
def startStroke (s : State) (x y : ℚ) (layer : Layer) : Except JSError Layer :=
  if s.activeLayerId = some layer.id then
    match layer.paths with
    | none => Except.error JSError.typeError
    | some paths => Except.ok { layer with paths := some (paths ++ [[Point.mk x y none]]) }
  else Except.ok layer

/-- The callback of `layers.map` in the pin branch of `handleMouseDown`. -/
def appendPin (s : State) (x y : ℚ) (value : String) (layer : Layer) : Layer :=
  if s.activeLayerId = some layer.id then
    { layer with
      type := LayerType.pins
      pins := some (layer.pins.getD [] ++ [Pin.mk x y value]) }
  else layer

/-- The function `handleMouseDown(e)`; `promptResult` is what `prompt` returns when it is
called: the text typed, or nothing when the dialog is cancelled. -/
def handleMouseDown (s : State) (rect : Rect) (e : MouseEvent)
    (promptResult : Option String) : Outcome :=
  let x := e.clientX - rect.left
  let y := e.clientY - rect.top
  match s.selectedTool with
  | Tool.draw =>
    let s1 : State := { s with isDrawing := true, lastPoint := some (x, y) }
    match s.layers.find? (fun l => decide (s.activeLayerId = some l.id)) with
    | none => Outcome.done s1
    | some _ =>
      match mapThrowing (startStroke s x y) s.layers with
      | Except.error err => Outcome.threw err s1
      | Except.ok updatedLayers => Outcome.done { s1 with layers := updatedLayers }
  | Tool.pin =>
    match promptResult with
    | none => Outcome.done s
    | some value =>
      if value ≠ "" then Outcome.done { s with layers := s.layers.map (appendPin s x y value) }
      else Outcome.done s
  | Tool.move => Outcome.done s

/-- The callback of `layers.map` in the drawing part of `handleMouseMove`.  It raises when the
layer has no `paths`, and when `paths` is empty (spreading the missing current stroke). -/
def extendStroke (s : State) (x y : ℚ) (layer : Layer) : Except JSError Layer :=
  if s.activeLayerId = some layer.id then
    match layer.paths with
    | none => Except.error JSError.typeError
    | some paths =>
      match paths.getLast? with
      | none => Except.error JSError.typeError
      | some currentPath =>
        Except.ok { layer with
          paths := some (paths.dropLast ++ [currentPath ++ [Point.mk x y (some s.currentColor)]]) }
  else Except.ok layer

/-- The test `Math.hypot(a, b) < r`, decided on the squares. -/
def hypotLessThan (a b r : ℚ) : Bool :=
  decide (0 < r ∧ a * a + b * b < r * r)

/-- The function `handleMouseMove(e)`. -/
def handleMouseMove (s : State) (rect : Rect) (e : MouseEvent) : Outcome :=
  let x := e.clientX - rect.left
  let y := e.clientY - rect.top
  let afterDrawing : Except JSError State :=
    if s.isDrawing = true ∧ s.selectedTool = Tool.draw then
      match mapThrowing (extendStroke s x y) s.layers with
      | Except.error err => Except.error err
      | Except.ok newLayers => Except.ok { s with layers := newLayers, lastPoint := some (x, y) }
    else Except.ok s
  match afterDrawing with
  | Except.error err => Outcome.threw err s
  | Except.ok s1 =>
    match s.layers.find? (fun l => decide (l.type = LayerType.pins)) with
    | none => Outcome.done { s1 with hoveredPin := none }
    | some pinsLayer =>
      match pinsLayer.pins with
      | none => Outcome.threw JSError.typeError s1
      | some pins =>
        Outcome.done { s1 with
          hoveredPin := pins.find? (fun pin => hypotLessThan (pin.x - x) (pin.y - y) 10) }

/-- The function `handleMouseUp`, bound to both `onMouseUp` and `onMouseLeave`. -/
def handleMouseUp (s : State) : State :=
  { s with isDrawing := false, lastPoint := none }

/-- A run of pointer moves: `handleMouseMove` on each event in turn, each in the state the
previous one left.  The run stops at a move that raises. -/
def handleMouseMoves (s : State) (rect : Rect) : List MouseEvent → Outcome
  | [] => Outcome.done s
  | e :: rest =>
    match handleMouseMove s rect e with
    | Outcome.done s1 => handleMouseMoves s1 rect rest
    | Outcome.threw err s1 => Outcome.threw err s1

/-- The layer with one more stroke at the end of its `paths`, when its id is `a`; the layer
itself otherwise.  Used to state what a press followed by moves amounts to. -/
def withStroke (a : ℕ) (stroke : List Point) (layer : Layer) : Layer :=
  if layer.id = a then { layer with paths := some (layer.paths.getD [] ++ [stroke]) } else layer

/-! ## Sample states -/

/-- A canvas of 800 by 600. -/
def sampleCanvas : Canvas :=
  { width := 800, height := 600 }

/-- A drawing layer, as `addLayer` makes it, holding one stroke of two points. -/
def sampleDrawing : Layer :=
  { id := 2, type := LayerType.drawing, visible := true, opacity := 40, x := 0, y := 0,
    paths := some [[Point.mk 1 1 none, Point.mk 2 3 (some "#ff0000")]], pins := some [],
    image := none }

/-- An image layer, as the upload handler makes it, hidden. -/
def sampleImage : Layer :=
  { id := 1, type := LayerType.image, visible := false, opacity := 100, x := 0, y := 0,
    paths := none, pins := none, image := some (Image.mk 640 480) }

/-- A pin-set layer with two pins of values 1 and 2, at opacity 0. -/
def samplePins : Layer :=
  { id := 3, type := LayerType.pins, visible := true, opacity := 0, x := 0, y := 0,
    paths := some [], pins := some [Pin.mk 10 10 "1", Pin.mk 200 200 "2"], image := none }

/-- Three pins of values 10, 20 and 30. -/
def tenTwentyThirty : List Pin :=
  [Pin.mk 0 0 "10", Pin.mk 5 5 "20", Pin.mk 9 9 "30"]

/-- The drawing layer above the hidden image layer. -/
def sampleState : State :=
  { State.initial with layers := [sampleDrawing, sampleImage], activeLayerId := some 2 }

/-- The pin-set layer alone, heatmap mode on. -/
def heatmapState : State :=
  { State.initial with layers := [samplePins], activeLayerId := some 3, showHeatmap := true }

/-- A state in which the draw tool is selected and the layer of id 2, a drawing layer, is
active, above a pin-set layer. -/
def drawingState : State :=
  { State.initial with
    layers := [sampleDrawing, samplePins]
    activeLayerId := some 2
    selectedTool := Tool.draw
    currentColor := "#00ff00" }

/-- A state in which the pin tool is selected and the drawing layer of id 2 is active, below
a hidden image layer. -/
def pinningState : State :=
  { State.initial with
    layers := [sampleImage, sampleDrawing]
    activeLayerId := some 2
    selectedTool := Tool.pin }

/-- Three layers: the drawing layer, the hidden image layer and the pin-set layer, the layer
of id 3 being dragged. -/
def stackState : State :=
  { State.initial with
    layers := [sampleDrawing, sampleImage, samplePins]
    draggedLayer := some 3 }

/-- The draw tool selected over one drawing layer, no layer being active and no stroke in
progress. -/
def idleDrawState : State :=
  { State.initial with layers := [sampleDrawing], selectedTool := Tool.draw }

/-! ## Runs of actions -/

/-- The actions of the user that change the state: the buttons that add a drawing layer and
upload an image, a click on a layer row, the tool buttons, the colour input, the three
pointer events of the canvas, the opacity slider, the heatmap checkbox, the buttons of a
layer row that hide and delete it, and the drag events of a layer row. -/
inductive Action where
  | addLayer (now : ℕ)
  | upload (now : ℕ) (img : Image)
  | selectLayer (layerId : ℕ)
  | selectTool (tool : Tool)
  | selectColor (color : String)
  | mouseDown (rect : Rect) (e : MouseEvent) (promptResult : Option String)
  | mouseMove (rect : Rect) (e : MouseEvent)
  | mouseUp
  | changeOpacity (value : ℕ)
  | toggleHeatmap (checked : Bool)
  | toggleLayerVisibility (layerId : ℕ)
  | deleteLayer (layerId : ℕ)
  | dragStart (layerId : ℕ)
  | dragOver (targetId : ℕ)
  | drop (targetId : ℕ)
  deriving DecidableEq

/-- The state after one action.  The only call of `addLayer` passes the type `drawing`; an
image finishes loading in the render in which its file was picked; a pointer handler that
raises leaves the state its queued updates lead to. -/
def step (s : State) : Action → State
  | Action.addLayer now => addLayer s now LayerType.drawing
  | Action.upload now img => handleFileUpload s s.layers now img
  | Action.selectLayer layerId => selectLayer s layerId
  | Action.selectTool tool => selectTool s tool
  | Action.selectColor color => selectColor s color
  | Action.mouseDown rect e promptResult => (handleMouseDown s rect e promptResult).state
  | Action.mouseMove rect e => (handleMouseMove s rect e).state
  | Action.mouseUp => handleMouseUp s
  | Action.changeOpacity value => changeOpacity s value
  | Action.toggleHeatmap checked => toggleHeatmap s checked
  | Action.toggleLayerVisibility layerId => toggleLayerVisibility s layerId
  | Action.deleteLayer layerId => deleteLayer s layerId
  | Action.dragStart layerId => handleDragStart s layerId
  | Action.dragOver targetId => handleDragOver s targetId
  | Action.drop targetId => handleDrop s targetId

/-- The state after a list of actions, taken in order. -/
def run (s : State) (actions : List Action) : State :=
  actions.foldl step s

/-- The image layer that the upload of a 640 by 480 image creates at time 1: a record with
neither `paths` nor `pins`. -/
def uploadedLayer : Layer :=
  { id := 1, type := LayerType.image, visible := true, opacity := 100, x := 0, y := 0,
    paths := none, pins := none, image := some (Image.mk 640 480) }

/-- The layer `uploadedLayer` after the pin tool has put a pin of value 7 at (5,5) on it: its
type is `pins`, and it still has no `paths`. -/
def pinnedImageLayer : Layer :=
  { uploadedLayer with type := LayerType.pins, pins := some [Pin.mk (5 - 0) (5 - 0) "7"] }

/-- The state reached from the initial one by uploading an image and selecting the draw
tool: the image layer, of id 1, is the active layer. -/
def uploadedState : State :=
  run State.initial [Action.upload 1 (Image.mk 640 480), Action.selectTool Tool.draw]

/-- The state reached from the initial one by uploading an image, placing a pin of value 7
on it with the pin tool, and selecting the draw tool: the active layer is a pin-set layer
made out of the image layer. -/
def pinnedImageState : State :=
  run State.initial
    [Action.upload 1 (Image.mk 640 480), Action.selectTool Tool.pin,
     Action.mouseDown (Rect.mk 0 0) (MouseEvent.mk 5 5) (some "7"),
     Action.selectTool Tool.draw]

/-- The state reached from the initial one by adding a drawing layer, selecting the draw tool
and the colour `#ff0000`, pressing at (0,0), moving to (10,10) and releasing. -/
def colouredStrokeState : State :=
  run State.initial
    [Action.addLayer 1, Action.selectTool Tool.draw, Action.selectColor "#ff0000",
     Action.mouseDown (Rect.mk 0 0) (MouseEvent.mk 0 0) none,
     Action.mouseMove (Rect.mk 0 0) (MouseEvent.mk 10 10),
     Action.mouseUp]

/-- The assignments to `strokeStyle` among a list of calls, in order. -/
def strokeStyles : List CanvasOp → List String
  | [] => []
  | CanvasOp.setStrokeStyle color :: rest => color :: strokeStyles rest
  | _ :: rest => strokeStyles rest

/-- A visible pin-set layer with a single pin, of value 5. -/
def singlePinLayer : Layer :=
  { id := 4, type := LayerType.pins, visible := true, opacity := 100, x := 0, y := 0,
    paths := some [], pins := some [Pin.mk 5 5 "5"], image := none }

/-- The three sample layers of `stackState` with heatmap mode on, the layer of id 3 being
dragged. -/
def stackHeatmapState : State :=
  { stackState with showHeatmap := true }

/-- Three layers, the hidden image layer last, that layer being dragged. -/
def hiddenDragState : State :=
  { State.initial with
    layers := [sampleDrawing, samplePins, sampleImage]
    draggedLayer := some 1 }

/-- Heatmap mode on over the single-pin layer, the hidden image layer and the drawing layer,
the drawing layer being dragged. -/
def abortDragState : State :=
  { State.initial with
    layers := [singlePinLayer, sampleImage, sampleDrawing]
    draggedLayer := some 2
    showHeatmap := true }

/-- The sample pin-set layer at opacity 40. -/
def fadedPins : Layer :=
  { samplePins with opacity := 40 }

/-- The pin-set layer at opacity 40 alone, heatmap mode on. -/
def fadedHeatmapState : State :=
  { State.initial with layers := [fadedPins], activeLayerId := some 3, showHeatmap := true }

/-- Heatmap mode on over the drawing layer, at index 0, and the single-pin layer below it. -/
def abortedRedrawState : State :=
  { State.initial with layers := [sampleDrawing, singlePinLayer], showHeatmap := true }

/-- The pin-set layer that a pin press at (10,10) with the text 1 makes of the drawing layer
added at time 1. -/
def hoverPinLayer : Layer :=
  { id := 1, type := LayerType.pins, visible := true, opacity := 100, x := 0, y := 0,
    paths := some [], pins := some [Pin.mk (10 - 0) (10 - 0) "1"], image := none }

/-- The image layer that an upload at time 2 creates. -/
def hoverImageLayer : Layer :=
  { uploadedLayer with id := 2 }

/-- The state reached from the initial one by adding a layer, placing a pin of value 1 at
(10,10) on it, uploading an image, selecting the draw tool and pressing at (10,10): the
press raised on the image layer, which is active, and left `isDrawing` set. -/
def hoverBlockedState : State :=
  run State.initial
    [Action.addLayer 1, Action.selectTool Tool.pin,
     Action.mouseDown (Rect.mk 0 0) (MouseEvent.mk 10 10) (some "1"),
     Action.upload 2 (Image.mk 640 480), Action.selectTool Tool.draw,
     Action.mouseDown (Rect.mk 0 0) (MouseEvent.mk 10 10) none]

/-! ## Loops with a callback that may raise: proofs -/

theorem mapThrowing_map_ok {α β γ : Type} (f : β → Except JSError γ) (g₁ : α → β) (g₂ : α → γ)
    (base : List α) (h : ∀ a ∈ base, f (g₁ a) = Except.ok (g₂ a)) :
    mapThrowing f (base.map g₁) = Except.ok (base.map g₂) := by
  induction base with
  | nil => rfl
  | cons a rest ih =>
    have ha := h a (List.mem_cons_self _ _)
    have hrest := ih (fun a' ha' => h a' (List.mem_cons_of_mem _ ha'))
    simp [mapThrowing, ha, hrest]

theorem mapThrowing_ok {α β : Type} (f : α → Except JSError β) (g : α → β)
    (base : List α) (h : ∀ a ∈ base, f a = Except.ok (g a)) :
    mapThrowing f base = Except.ok (base.map g) := by
  have := mapThrowing_map_ok f id g base (by simpa using h)
  simpa using this

theorem mapThrowing_total {α β : Type} (f : α → Except JSError β) (xs : List α)
    (h : ∀ a ∈ xs, ∃ b, f a = Except.ok b) : ∃ bs, mapThrowing f xs = Except.ok bs := by
  induction xs with
  | nil => exact ⟨[], rfl⟩
  | cons a rest ih =>
    obtain ⟨b, hb⟩ := h a (List.mem_cons_self _ _)
    obtain ⟨bs, hbs⟩ := ih (fun a' ha' => h a' (List.mem_cons_of_mem _ ha'))
    exact ⟨b :: bs, by simp [mapThrowing, hb, hbs]⟩

theorem mem_of_mapThrowing {α β : Type} (f : α → Except JSError β) (xs : List α) :
    ∀ ys, mapThrowing f xs = Except.ok ys → ∀ y ∈ ys, ∃ x ∈ xs, f x = Except.ok y := by
  induction xs with
  | nil =>
    intro ys h y hy
    simp [mapThrowing] at h
    subst h
    simp at hy
  | cons a rest ih =>
    intro ys h y hy
    cases hfa : f a with
    | error err => simp [mapThrowing, hfa] at h
    | ok b =>
      cases hrest : mapThrowing f rest with
      | error err => simp [mapThrowing, hfa, hrest] at h
      | ok bs =>
        simp [mapThrowing, hfa, hrest] at h
        subst h
        rcases List.mem_cons.mp hy with rfl | hy'
        · exact ⟨a, List.mem_cons_self _ _, hfa⟩
        · obtain ⟨x, hx, hfx⟩ := ih bs hrest y hy'
          exact ⟨x, List.mem_cons_of_mem _ hx, hfx⟩

theorem mapThrowing_error {α β : Type} (f : α → Except JSError β) (xs : List α) (a : α)
    (err : JSError) (ha : a ∈ xs) (hf : f a = Except.error err)
    (hall : ∀ x ∈ xs, ∀ err', f x = Except.error err' → err' = err) :
    mapThrowing f xs = Except.error err := by
  induction xs with
  | nil => simp at ha
  | cons x rest ih =>
    cases hx : f x with
    | error err' =>
      have := hall x (List.mem_cons_self _ _) err' hx
      subst this
      simp [mapThrowing, hx]
    | ok b =>
      have hmem : a ∈ rest := by
        rcases List.mem_cons.mp ha with h | h
        · rw [h, hx] at hf
          cases hf
        · exact h
      have hrec := ih hmem (fun x' hx' => hall x' (List.mem_cons_of_mem _ hx'))
      simp [mapThrowing, hx, hrec]

/-! ## Compositor: proofs -/

theorem drawPaths_ok_of_nonempty (paths : List (List Point))
    (h : paths.all (fun path => !path.isEmpty) = true) :
    ∃ ops, drawPaths paths = Except.ok ops := by
  induction paths with
  | nil => exact ⟨[], rfl⟩
  | cons path rest ih =>
    simp only [List.all_cons, Bool.and_eq_true] at h
    obtain ⟨ops, hops⟩ := ih h.2
    cases path with
    | nil => simp at h
    | cons p0 more => simp [drawPaths, drawPath, hops]

theorem heatmapStop_error (pins : List Pin) (pin : Pin) (err : JSError)
    (h : heatmapStop pins pin = Except.error err) : err = JSError.syntaxError := by
  unfold heatmapStop at h
  split_ifs at h
  simp at h
  exact h.symm

/-- The heatmap of pins whose centre alphas are all finite is built without raising. -/
theorem generateHeatmap_of_finite (pins : List Pin)
    (h : pins.all (fun pin => (heatmapFill pins pin).centreAlpha.isFinite) = true) :
    generateHeatmap pins = Except.ok
      [CanvasOp.setGlobalAlpha (7 / 10),
       CanvasOp.drawBuffer (pins.map (heatmapFill pins)) 0 0,
       CanvasOp.setGlobalAlpha 1] := by
  have hmap : mapThrowing (heatmapStop pins) pins = Except.ok (pins.map (heatmapFill pins)) := by
    apply mapThrowing_ok
    intro pin hpin
    have := List.all_eq_true.mp h pin hpin
    simp [heatmapStop, this]
  simp [generateHeatmap, hmap]

/-- The heatmap of pins one of which has a centre alpha that is NaN or infinite raises a
SyntaxError. -/
theorem generateHeatmap_of_not_finite (pins : List Pin) (pin : Pin) (hpin : pin ∈ pins)
    (h : (heatmapFill pins pin).centreAlpha.isFinite = false) :
    generateHeatmap pins = Except.error JSError.syntaxError := by
  have hmap : mapThrowing (heatmapStop pins) pins = Except.error JSError.syntaxError :=
    mapThrowing_error _ pins pin _ hpin (by simp [heatmapStop, h])
      (fun x _ err' hx => heatmapStop_error pins x err' hx)
  simp [generateHeatmap, hmap]

theorem renderLayer_eq_layerOps (s : State) (canvas : Canvas) (layer : Layer)
    (ops : List CanvasOp) (h : renderLayer s canvas layer = Except.ok ops) :
    renderLayer s canvas layer = Except.ok (layerOps s canvas layer) := by
  simp [layerOps, h]

theorem renderLayer_ok_of_renderable (s : State) (canvas : Canvas) (layer : Layer)
    (h : layer.renderable = true) (hs : layer.heatmapSafe s.showHeatmap = true) :
    renderLayer s canvas layer = Except.ok (layerOps s canvas layer) := by
  have key : ∃ ops, renderLayer s canvas layer = Except.ok ops := by
    unfold Layer.renderable at h
    unfold Layer.heatmapSafe at hs
    unfold renderLayer
    cases ht : layer.type with
    | image =>
      cases hi : layer.image with
      | none => exact ⟨_, rfl⟩
      | some img => exact ⟨_, rfl⟩
    | drawing =>
      rw [ht] at h
      cases hp : layer.paths with
      | none => simp [hp] at h
      | some paths =>
        rw [hp] at h
        obtain ⟨ops, hops⟩ := drawPaths_ok_of_nonempty paths h
        exact ⟨ops, by simpa using hops⟩
    | pins =>
      rw [ht] at h
      cases hp : layer.pins with
      | none => simp [hp] at h
      | some pins =>
        rw [ht, hp] at hs
        simp only at hs ⊢
        by_cases hc : s.showHeatmap = true ∧ pins.length > 0
        · have hall : pins.all (fun pin => (heatmapFill pins pin).centreAlpha.isFinite) = true := by
            simpa [hc.1] using hs
          rw [if_pos hc, generateHeatmap_of_finite pins hall]
          exact ⟨_, rfl⟩
        · rw [if_neg hc]
          exact ⟨_, rfl⟩
  obtain ⟨ops, hops⟩ := key
  exact renderLayer_eq_layerOps s canvas layer ops hops

theorem drawLayer_of_visible (s : State) (canvas : Canvas) (layer : Layer)
    (hv : layer.visible = true)
    (h : renderLayer s canvas layer = Except.ok (layerOps s canvas layer)) :
    drawLayer s canvas layer = Except.ok
      (CanvasOp.setGlobalAlpha ((layer.opacity : ℚ) / 100) :: layerOps s canvas layer) := by
  simp [drawLayer, hv, h]

theorem drawLayer_of_hidden (s : State) (canvas : Canvas) (layer : Layer)
    (hv : layer.visible = false) : drawLayer s canvas layer = Except.ok [] := by
  simp [drawLayer, hv]

/-- The loop of `drawLayers` over layers whose rendering does not raise. -/
theorem drawLayersLoop_eq (s : State) (canvas : Canvas) (ls : List Layer)
    (h : ∀ l ∈ ls, l.visible = true →
      renderLayer s canvas l = Except.ok (layerOps s canvas l)) (log : List CanvasOp) :
    drawLayersLoop s canvas ls log = Except.ok (log ++
      ((ls.filter (fun l => l.visible)).map (fun l =>
        CanvasOp.setGlobalAlpha ((l.opacity : ℚ) / 100) :: layerOps s canvas l)).flatten) := by
  induction ls generalizing log with
  | nil => simp [drawLayersLoop]
  | cons l rest ih =>
    have hrest : ∀ l' ∈ rest, l'.visible = true →
        renderLayer s canvas l' = Except.ok (layerOps s canvas l') :=
      fun l' hl' => h l' (List.mem_cons_of_mem _ hl')
    cases hv : l.visible with
    | false =>
      simp [drawLayersLoop, drawLayer_of_hidden s canvas l hv, ih hrest, hv]
    | true =>
      have hr := h l (List.mem_cons_self _ _) hv
      simp [drawLayersLoop, drawLayer_of_visible s canvas l hv hr, ih hrest, hv]

/-- A loop of `drawLayers` that runs to its end has rendered every visible layer without
raising. -/
theorem renders_of_drawLayersLoop_ok (s : State) (canvas : Canvas) (ls : List Layer) :
    ∀ (log ops : List CanvasOp), drawLayersLoop s canvas ls log = Except.ok ops →
      ∀ l ∈ ls, l.visible = true →
        renderLayer s canvas l = Except.ok (layerOps s canvas l) := by
  induction ls with
  | nil =>
    intro log ops _ l hl
    simp at hl
  | cons l0 rest ih =>
    intro log ops h l hl hv
    cases hd : drawLayer s canvas l0 with
    | error err => simp [drawLayersLoop, hd] at h
    | ok ops0 =>
      simp only [drawLayersLoop, hd] at h
      rcases List.mem_cons.mp hl with rfl | hl'
      · have hex : ∃ lops, renderLayer s canvas l = Except.ok lops := by
          cases hr : renderLayer s canvas l with
          | error err => simp [drawLayer, hv, hr] at hd
          | ok lops => exact ⟨lops, rfl⟩
        obtain ⟨lops, hr⟩ := hex
        exact renderLayer_eq_layerOps s canvas l lops hr
      · exact ih _ ops h l hl' hv

theorem assignGlobalAlpha_opacity (current : ℚ) (opacity : ℕ) (h : opacity ≤ 100) :
    assignGlobalAlpha current ((opacity : ℚ) / 100) = (opacity : ℚ) / 100 := by
  have h0 : (0 : ℚ) ≤ (opacity : ℚ) / 100 := by positivity
  have h1 : (opacity : ℚ) / 100 ≤ 1 := by
    rw [div_le_one (by norm_num)]
    exact_mod_cast h
  simp [assignGlobalAlpha, h0, h1]

theorem paints_cons_of_no_set (a : ℚ) (op : CanvasOp) (rest : List CanvasOp)
    (h : op.setsAlpha = false) :
    paints a (op :: rest)
      = if op.isPaint = true then (op, a) :: paints a rest else paints a rest := by
  cases op <;> simp [CanvasOp.setsAlpha] at h <;> simp [paints]

theorem paints_alpha_of_no_set (ops : List CanvasOp)
    (h : ∀ op ∈ ops, op.setsAlpha = false) (a : ℚ) :
    ∀ p ∈ paints a ops, p.2 = a := by
  induction ops with
  | nil => simp [paints]
  | cons op rest ih =>
    have hrest : ∀ op' ∈ rest, op'.setsAlpha = false :=
      fun op' hop' => h op' (List.mem_cons_of_mem _ hop')
    intro p hp
    rw [paints_cons_of_no_set a op rest (h op (List.mem_cons_self _ _))] at hp
    split_ifs at hp
    · rcases List.mem_cons.mp hp with rfl | hp'
      · rfl
      · exact ih hrest p hp'
    · exact ih hrest p hp

theorem drawPaths_no_set (paths : List (List Point)) (ops : List CanvasOp)
    (h : drawPaths paths = Except.ok ops) : ∀ op ∈ ops, op.setsAlpha = false := by
  induction paths generalizing ops with
  | nil =>
    simp [drawPaths] at h
    subst h
    simp
  | cons path rest ih =>
    cases path with
    | nil => simp [drawPaths, drawPath] at h
    | cons p0 more =>
      cases hrest : drawPaths rest with
      | error err => simp [drawPaths, drawPath, hrest] at h
      | ok restOps =>
        simp [drawPaths, drawPath, hrest] at h
        subst h
        intro op hop
        simp at hop
        rcases hop with rfl | rfl | rfl | rfl | rfl | hop
        · rfl
        · rfl
        · rfl
        · rfl
        · rfl
        · rcases hop with ⟨pt, _, rfl⟩ | rfl | hop
          · rfl
          · rfl
          · exact ih restOps hrest op hop

theorem drawPin_no_set (s : State) (pin : Pin) :
    ∀ op ∈ drawPin s pin, op.setsAlpha = false := by
  have hall : (drawPin s pin).all (fun op => !op.setsAlpha) = true := by
    unfold drawPin
    split_ifs <;> rfl
  intro op hop
  simpa using List.all_eq_true.mp hall op hop

theorem layerOps_no_set (s : State) (canvas : Canvas) (layer : Layer)
    (hh : ¬ (layer.type = LayerType.pins ∧ s.showHeatmap = true)) :
    ∀ op ∈ layerOps s canvas layer, op.setsAlpha = false := by
  intro op hop
  unfold layerOps at hop
  cases hr : renderLayer s canvas layer with
  | error err => simp [hr] at hop
  | ok ops =>
    rw [hr] at hop
    simp only at hop
    unfold renderLayer at hr
    cases ht : layer.type with
    | image =>
      rw [ht] at hr
      cases hi : layer.image with
      | none =>
        rw [hi] at hr
        simp at hr
        subst hr
        simp at hop
      | some img =>
        rw [hi] at hr
        simp at hr
        subst hr
        simp at hop
        subst hop
        rfl
    | drawing =>
      rw [ht] at hr
      cases hp : layer.paths with
      | none => simp [hp] at hr
      | some paths =>
        simp [hp] at hr
        exact drawPaths_no_set paths ops hr op hop
    | pins =>
      rw [ht] at hr
      have hs : s.showHeatmap = false := by
        cases hsh : s.showHeatmap with
        | false => rfl
        | true => exact absurd ⟨ht, hsh⟩ hh
      cases hp : layer.pins with
      | none => simp [hp] at hr
      | some pins =>
        simp [hp, hs] at hr
        subst hr
        simp at hop
        obtain ⟨pin, _, hmem⟩ := hop
        exact drawPin_no_set s pin op hmem

/-- The calls of a redraw over layers that render without raising.  On a layer list whose
visible layers are renderable with a heatmap that raises no error, and whose opacities are at
most 100, `drawLayers` clears the canvas and then renders the visible layers, going through
the list from its last layer to its first; for each it first sets the global alpha to
`opacity / 100`.  A hidden layer issues no call, a visible layer at index 0 is rendered last,
and the paint calls of a layer rendered without the heatmap are all under `opacity / 100`. -/
theorem drawLayers_visible_in_reverse_order (s : State) (canvas : Canvas)
    (hr : ∀ l ∈ s.layers, l.visible = true →
      l.renderable = true ∧ l.heatmapSafe s.showHeatmap = true)
    (ho : ∀ l ∈ s.layers, l.opacity ≤ 100) :
    drawLayers s canvas = Except.ok
        (CanvasOp.clearRect 0 0 canvas.width canvas.height ::
          ((s.layers.reverse.filter (fun l => l.visible)).map (fun l =>
            CanvasOp.setGlobalAlpha ((l.opacity : ℚ) / 100) :: layerOps s canvas l)).flatten)
    ∧ (∀ l : Layer, l.visible = false → drawLayer s canvas l = Except.ok [])
    ∧ (∀ l ∈ s.layers, ∀ (a : ℚ) (ops : List CanvasOp),
        paints a (CanvasOp.setGlobalAlpha ((l.opacity : ℚ) / 100) :: ops)
          = paints ((l.opacity : ℚ) / 100) ops)
    ∧ (∀ top rest, s.layers = top :: rest → top.visible = true →
        ∃ before, drawLayers s canvas = Except.ok
          (before ++ CanvasOp.setGlobalAlpha ((top.opacity : ℚ) / 100) :: layerOps s canvas top))
    ∧ (∀ l ∈ s.layers, ¬ (l.type = LayerType.pins ∧ s.showHeatmap = true) →
        ∀ (a : ℚ), ∀ p ∈ paints a
            (CanvasOp.setGlobalAlpha ((l.opacity : ℚ) / 100) :: layerOps s canvas l),
          p.2 = (l.opacity : ℚ) / 100) := by
  have hr' : ∀ l ∈ s.layers.reverse, l.visible = true →
      renderLayer s canvas l = Except.ok (layerOps s canvas l) :=
    fun l hl hv =>
      renderLayer_ok_of_renderable s canvas l (hr l (List.mem_reverse.mp hl) hv).1
        (hr l (List.mem_reverse.mp hl) hv).2
  have hmain := drawLayersLoop_eq s canvas s.layers.reverse hr'
    [CanvasOp.clearRect 0 0 canvas.width canvas.height]
  have halpha : ∀ l ∈ s.layers, ∀ (a : ℚ) (ops : List CanvasOp),
      paints a (CanvasOp.setGlobalAlpha ((l.opacity : ℚ) / 100) :: ops)
        = paints ((l.opacity : ℚ) / 100) ops := by
    intro l hl a ops
    simp [paints, assignGlobalAlpha_opacity a l.opacity (ho l hl)]
  refine ⟨by simpa [drawLayers] using hmain, ?_, halpha, ?_, ?_⟩
  · intro l hv
    exact drawLayer_of_hidden s canvas l hv
  · intro top rest hl hv
    refine ⟨CanvasOp.clearRect 0 0 canvas.width canvas.height ::
      ((rest.reverse.filter (fun l => l.visible)).map (fun l =>
        CanvasOp.setGlobalAlpha ((l.opacity : ℚ) / 100) :: layerOps s canvas l)).flatten, ?_⟩
    rw [drawLayers, hmain, hl]
    simp [List.filter_append, hv]
  · intro l hl hh a p hp
    rw [halpha l hl] at hp
    exact paints_alpha_of_no_set _ (layerOps_no_set s canvas l hh) _ p hp

/-- The sample state, a drawing layer above a hidden image layer, meets the hypotheses of
`drawLayers_visible_in_reverse_order`. -/
theorem drawLayers_visible_in_reverse_order_witness :
    (∀ l ∈ sampleState.layers, l.visible = true →
      l.renderable = true ∧ l.heatmapSafe sampleState.showHeatmap = true)
    ∧ (∀ l ∈ sampleState.layers, l.opacity ≤ 100)
    ∧ drawLayers sampleState sampleCanvas = Except.ok
        (CanvasOp.clearRect 0 0 sampleCanvas.width sampleCanvas.height ::
          ((sampleState.layers.reverse.filter (fun l => l.visible)).map (fun l =>
            CanvasOp.setGlobalAlpha ((l.opacity : ℚ) / 100)
              :: layerOps sampleState sampleCanvas l)).flatten) :=
  have h1 : ∀ l ∈ sampleState.layers, l.visible = true →
      l.renderable = true ∧ l.heatmapSafe sampleState.showHeatmap = true := by decide
  have h2 : ∀ l ∈ sampleState.layers, l.opacity ≤ 100 := by decide
  ⟨h1, h2, (drawLayers_visible_in_reverse_order sampleState sampleCanvas h1 h2).1⟩

/-! ## Heatmap synthesizer: proofs -/

theorem pinValue_of_readLiteral (pin : Pin) (l : StrLiteral)
    (h : readLiteral pin.value = some (false, l)) :
    pinValue pin = JSNum.orElse l.value (JSNum.fin 0) := by
  simp [pinValue, parseFloat, h]

theorem pinValue_one (x y : ℚ) : pinValue (Pin.mk x y "1") = JSNum.fin 1 := by
  have h : readLiteral "1" = some (false, StrLiteral.decimal 1 0 0 0) := by decide
  rw [pinValue_of_readLiteral _ _ h]
  simp [StrLiteral.value, JSNum.orElse, JSNum.toBoolean]

theorem pinValue_two (x y : ℚ) : pinValue (Pin.mk x y "2") = JSNum.fin 2 := by
  have h : readLiteral "2" = some (false, StrLiteral.decimal 2 0 0 0) := by decide
  rw [pinValue_of_readLiteral _ _ h]
  simp [StrLiteral.value, JSNum.orElse, JSNum.toBoolean]

/-- C2, at the failing input: a visible pin-set layer of opacity 0 with pins of values 1 and 2,
heatmap mode on.  The redraw runs to its end; the markers are painted under alpha 0, but the
heatmap buffer, whose second gradient has centre alpha 0.6, is painted under alpha 0.7. -/
theorem heatmap_painted_despite_zero_opacity :
    samplePins.opacity = 0 ∧ samplePins.visible = true ∧
    ∃ ops, drawLayers heatmapState sampleCanvas = Except.ok ops ∧
      paints 1 ops =
        [(CanvasOp.fill, 0), (CanvasOp.stroke, 0), (CanvasOp.fill, 0), (CanvasOp.stroke, 0),
         (CanvasOp.drawBuffer
            [heatmapFill [Pin.mk 10 10 "1", Pin.mk 200 200 "2"] (Pin.mk 10 10 "1"),
             heatmapFill [Pin.mk 10 10 "1", Pin.mk 200 200 "2"] (Pin.mk 200 200 "2")] 0 0,
          7 / 10)] ∧
      (heatmapFill [Pin.mk 10 10 "1", Pin.mk 200 200 "2"] (Pin.mk 200 200 "2")).centreAlpha
        = JSNum.fin (6 / 10) := by
  have hone : (heatmapFill [Pin.mk 10 10 "1", Pin.mk 200 200 "2"] (Pin.mk 10 10 "1")).centreAlpha
      = JSNum.fin 0 := by
    simp [heatmapFill, normalizedValue, maxValue, minValue, JSNum.mathMax, JSNum.mathMin,
      pinValue_one, pinValue_two, JSNum.max2, JSNum.min2, JSNum.lt, JSNum.sub, JSNum.div,
      JSNum.mul]
    norm_num
  have htwo : (heatmapFill [Pin.mk 10 10 "1", Pin.mk 200 200 "2"]
      (Pin.mk 200 200 "2")).centreAlpha = JSNum.fin (6 / 10) := by
    simp [heatmapFill, normalizedValue, maxValue, minValue, JSNum.mathMax, JSNum.mathMin,
      pinValue_one, pinValue_two, JSNum.max2, JSNum.min2, JSNum.lt, JSNum.sub, JSNum.div,
      JSNum.mul]
    norm_num
  have hgen := generateHeatmap_of_finite [Pin.mk 10 10 "1", Pin.mk 200 200 "2"]
    (by simp [hone, htwo, JSNum.isFinite])
  have hrender : renderLayer heatmapState sampleCanvas samplePins = Except.ok
      (([Pin.mk 10 10 "1", Pin.mk 200 200 "2"].map (drawPin heatmapState)).flatten ++
        [CanvasOp.setGlobalAlpha (7 / 10),
         CanvasOp.drawBuffer ([Pin.mk 10 10 "1", Pin.mk 200 200 "2"].map
           (heatmapFill [Pin.mk 10 10 "1", Pin.mk 200 200 "2"])) 0 0,
         CanvasOp.setGlobalAlpha 1]) := by
    show (if heatmapState.showHeatmap = true ∧
          [Pin.mk 10 10 "1", Pin.mk 200 200 "2"].length > 0 then
        match generateHeatmap [Pin.mk 10 10 "1", Pin.mk 200 200 "2"] with
        | Except.error err => Except.error err
        | Except.ok overlay => Except.ok
            (([Pin.mk 10 10 "1", Pin.mk 200 200 "2"].map (drawPin heatmapState)).flatten
              ++ overlay)
      else Except.ok ([Pin.mk 10 10 "1", Pin.mk 200 200 "2"].map
        (drawPin heatmapState)).flatten) = _
    rw [if_pos ⟨rfl, by decide⟩, hgen]
  have hdraw : drawLayers heatmapState sampleCanvas = Except.ok
      ([CanvasOp.clearRect 0 0 sampleCanvas.width sampleCanvas.height] ++
        CanvasOp.setGlobalAlpha ((samplePins.opacity : ℚ) / 100) ::
          (([Pin.mk 10 10 "1", Pin.mk 200 200 "2"].map (drawPin heatmapState)).flatten ++
            [CanvasOp.setGlobalAlpha (7 / 10),
             CanvasOp.drawBuffer ([Pin.mk 10 10 "1", Pin.mk 200 200 "2"].map
               (heatmapFill [Pin.mk 10 10 "1", Pin.mk 200 200 "2"])) 0 0,
             CanvasOp.setGlobalAlpha 1])) := by
    show drawLayersLoop heatmapState sampleCanvas [samplePins] _ = _
    have hlayer : drawLayer heatmapState sampleCanvas samplePins = Except.ok
        (CanvasOp.setGlobalAlpha ((samplePins.opacity : ℚ) / 100) ::
          (([Pin.mk 10 10 "1", Pin.mk 200 200 "2"].map (drawPin heatmapState)).flatten ++
            [CanvasOp.setGlobalAlpha (7 / 10),
             CanvasOp.drawBuffer ([Pin.mk 10 10 "1", Pin.mk 200 200 "2"].map
               (heatmapFill [Pin.mk 10 10 "1", Pin.mk 200 200 "2"])) 0 0,
             CanvasOp.setGlobalAlpha 1])) := by
      have hv : samplePins.visible = true := rfl
      simp only [drawLayer, hv, if_true, hrender]
    simp only [drawLayersLoop, hlayer]
  refine ⟨rfl, rfl, _, hdraw, ?_, htwo⟩
  simp [drawPin, paints, CanvasOp.isPaint, assignGlobalAlpha, heatmapState,
    State.initial, samplePins]
  norm_num

theorem JSNum.eq_fin_toRat (v : JSNum) (h : v.isFinite = true) : v = JSNum.fin v.toRat := by
  cases v with
  | fin q => rfl
  | nan => simp [JSNum.isFinite] at h
  | negInf => simp [JSNum.isFinite] at h
  | posInf => simp [JSNum.isFinite] at h

theorem JSNum.max2_fin (a b : ℚ) :
    JSNum.max2 (JSNum.fin a) (JSNum.fin b) = JSNum.fin (max a b) := by
  by_cases h : a < b
  · simp [JSNum.max2, JSNum.lt, h, max_eq_right (le_of_lt h)]
  · simp [JSNum.max2, JSNum.lt, h, max_eq_left (not_lt.mp h)]

theorem JSNum.min2_fin (a b : ℚ) :
    JSNum.min2 (JSNum.fin a) (JSNum.fin b) = JSNum.fin (min a b) := by
  by_cases h : b < a
  · simp [JSNum.min2, JSNum.lt, h, min_eq_right (le_of_lt h)]
  · simp [JSNum.min2, JSNum.lt, h, min_eq_left (not_lt.mp h)]

theorem JSNum.max2_negInf_fin (q : ℚ) :
    JSNum.max2 JSNum.negInf (JSNum.fin q) = JSNum.fin q := by
  simp [JSNum.max2, JSNum.lt]

theorem JSNum.min2_posInf_fin (q : ℚ) :
    JSNum.min2 JSNum.posInf (JSNum.fin q) = JSNum.fin q := by
  simp [JSNum.min2, JSNum.lt]

theorem JSNum.foldl_max2_fin (qs : List ℚ) (a : ℚ) :
    (qs.map JSNum.fin).foldl JSNum.max2 (JSNum.fin a) = JSNum.fin (qs.foldl max a) := by
  induction qs generalizing a with
  | nil => rfl
  | cons q rest ih => simp [JSNum.max2_fin, ih]

theorem JSNum.foldl_min2_fin (qs : List ℚ) (a : ℚ) :
    (qs.map JSNum.fin).foldl JSNum.min2 (JSNum.fin a) = JSNum.fin (qs.foldl min a) := by
  induction qs generalizing a with
  | nil => rfl
  | cons q rest ih => simp [JSNum.min2_fin, ih]

theorem JSNum.mathMax_fin_cons (q : ℚ) (qs : List ℚ) :
    JSNum.mathMax ((q :: qs).map JSNum.fin) = JSNum.fin (qs.foldl max q) := by
  simp [JSNum.mathMax, JSNum.max2, JSNum.lt, JSNum.foldl_max2_fin]

theorem JSNum.mathMin_fin_cons (q : ℚ) (qs : List ℚ) :
    JSNum.mathMin ((q :: qs).map JSNum.fin) = JSNum.fin (qs.foldl min q) := by
  simp [JSNum.mathMin, JSNum.min2, JSNum.lt, JSNum.foldl_min2_fin]

theorem foldl_max_spec (qs : List ℚ) (a : ℚ) :
    qs.foldl max a ∈ a :: qs ∧ ∀ x ∈ a :: qs, x ≤ qs.foldl max a := by
  induction qs generalizing a with
  | nil => simp
  | cons q rest ih =>
    obtain ⟨hmem, hle⟩ := ih (max a q)
    refine ⟨?_, ?_⟩
    · simp only [List.foldl_cons]
      rcases List.mem_cons.mp hmem with h | h
      · rcases max_choice a q with h' | h'
        · rw [h, h']; simp
        · rw [h, h']; simp
      · exact List.mem_cons_of_mem _ (List.mem_cons_of_mem _ h)
    · intro x hx
      simp only [List.foldl_cons]
      have hm := hle (max a q) (List.mem_cons_self _ _)
      rcases List.mem_cons.mp hx with rfl | hx
      · exact le_trans (le_max_left _ _) hm
      · rcases List.mem_cons.mp hx with rfl | hx
        · exact le_trans (le_max_right _ _) hm
        · exact hle x (List.mem_cons_of_mem _ hx)

theorem foldl_min_spec (qs : List ℚ) (a : ℚ) :
    qs.foldl min a ∈ a :: qs ∧ ∀ x ∈ a :: qs, qs.foldl min a ≤ x := by
  induction qs generalizing a with
  | nil => simp
  | cons q rest ih =>
    obtain ⟨hmem, hle⟩ := ih (min a q)
    refine ⟨?_, ?_⟩
    · simp only [List.foldl_cons]
      rcases List.mem_cons.mp hmem with h | h
      · rcases min_choice a q with h' | h'
        · rw [h, h']; simp
        · rw [h, h']; simp
      · exact List.mem_cons_of_mem _ (List.mem_cons_of_mem _ h)
    · intro x hx
      simp only [List.foldl_cons]
      have hm := hle (min a q) (List.mem_cons_self _ _)
      rcases List.mem_cons.mp hx with rfl | hx
      · exact le_trans hm (min_le_left _ _)
      · rcases List.mem_cons.mp hx with rfl | hx
        · exact le_trans hm (min_le_right _ _)
        · exact hle x (List.mem_cons_of_mem _ hx)

theorem map_pinValue_of_finite (pins : List Pin)
    (hfin : ∀ p ∈ pins, (pinValue p).isFinite = true) :
    pins.map pinValue = (pins.map (fun p => (pinValue p).toRat)).map JSNum.fin := by
  induction pins with
  | nil => rfl
  | cons p rest ih =>
    have hp := JSNum.eq_fin_toRat _ (hfin p (List.mem_cons_self _ _))
    have hrest := ih (fun p' hp' => hfin p' (List.mem_cons_of_mem _ hp'))
    simp only [List.map_cons, List.map_map] at hrest ⊢
    rw [hrest, ← hp]

/-- The extremes of a non-empty list of pins with finite values: `minValue` and `maxValue` are
finite, attained by some pin, and bound every pin value. -/
theorem extremes_of_finite (pins : List Pin) (hne : pins ≠ [])
    (hfin : ∀ p ∈ pins, (pinValue p).isFinite = true) :
    ∃ mn mx : ℚ, minValue pins = JSNum.fin mn ∧ maxValue pins = JSNum.fin mx ∧
      (∃ p ∈ pins, pinValue p = JSNum.fin mn) ∧ (∃ p ∈ pins, pinValue p = JSNum.fin mx) ∧
      ∀ p ∈ pins, ∃ v : ℚ, pinValue p = JSNum.fin v ∧ mn ≤ v ∧ v ≤ mx := by
  have hmap := map_pinValue_of_finite pins hfin
  cases pins with
  | nil => exact absurd rfl hne
  | cons p0 rest =>
    let qs := rest.map (fun p => (pinValue p).toRat)
    let q0 := (pinValue p0).toRat
    have hmap' : (p0 :: rest).map pinValue = (q0 :: qs).map JSNum.fin := by
      simpa [q0, qs] using hmap
    have hmin : minValue (p0 :: rest) = JSNum.fin (qs.foldl min q0) := by
      rw [minValue, hmap', JSNum.mathMin_fin_cons]
    have hmax : maxValue (p0 :: rest) = JSNum.fin (qs.foldl max q0) := by
      rw [maxValue, hmap', JSNum.mathMax_fin_cons]
    obtain ⟨hminmem, hminle⟩ := foldl_min_spec qs q0
    obtain ⟨hmaxmem, hmaxle⟩ := foldl_max_spec qs q0
    have hval : ∀ p ∈ p0 :: rest, pinValue p = JSNum.fin (pinValue p).toRat ∧
        (pinValue p).toRat ∈ q0 :: qs := by
      intro p hp
      refine ⟨JSNum.eq_fin_toRat _ (hfin p hp), ?_⟩
      rcases List.mem_cons.mp hp with rfl | hp'
      · exact List.mem_cons_self _ _
      · exact List.mem_cons_of_mem _ (List.mem_map.mpr ⟨p, hp', rfl⟩)
    have hback : ∀ q ∈ q0 :: qs, ∃ p ∈ p0 :: rest, pinValue p = JSNum.fin q := by
      intro q hq
      rcases List.mem_cons.mp hq with rfl | hq'
      · exact ⟨p0, List.mem_cons_self _ _, (hval p0 (List.mem_cons_self _ _)).1⟩
      · obtain ⟨p, hp, rfl⟩ := List.mem_map.mp hq'
        exact ⟨p, List.mem_cons_of_mem _ hp, (hval p (List.mem_cons_of_mem _ hp)).1⟩
    refine ⟨qs.foldl min q0, qs.foldl max q0, hmin, hmax, hback _ hminmem, hback _ hmaxmem, ?_⟩
    intro p hp
    obtain ⟨hv, hm⟩ := hval p hp
    exact ⟨_, hv, hminle _ hm, hmaxle _ hm⟩

theorem pinValue_decimal (x y : ℚ) (value : String) (n : ℕ) (hn : n ≠ 0)
    (h : readLiteral value = some (false, StrLiteral.decimal n 0 0 0)) :
    pinValue (Pin.mk x y value) = JSNum.fin n := by
  rw [pinValue_of_readLiteral _ _ h]
  simp [StrLiteral.value, JSNum.orElse, JSNum.toBoolean, hn]

theorem pinValue_infinity (x y : ℚ) : pinValue (Pin.mk x y "Infinity") = JSNum.posInf := by
  have h : readLiteral "Infinity" = some (false, StrLiteral.infinity) := by decide
  rw [pinValue_of_readLiteral _ _ h]
  simp [StrLiteral.value, JSNum.orElse, JSNum.toBoolean]

/-- Normalization in exact arithmetic.  The numeric value of a pin is `parseFloat` of its
text, 0 when that is NaN.  For a non-empty pin list whose numeric values are all finite and
have max > min, `minValue` and `maxValue` are the least and the greatest pin value, and for
each pin `normalizedValue` is `(value - min) / (max - min)`; it lies between 0 and 1, is 0
for a pin holding the minimum and 1 for a pin holding the maximum, and the centre alpha of
the pin's gradient is the normalized value times 0.6.  The values are exact rationals here:
the lemma says nothing of a literal or a difference that overflows a double. -/
theorem normalizedValue_of_finite (pins : List Pin) (hne : pins ≠ [])
    (hfin : ∀ p ∈ pins, (pinValue p).isFinite = true)
    (hlt : JSNum.lt (minValue pins) (maxValue pins) = true) :
    (∀ p : Pin, parseFloat p.value = JSNum.nan → pinValue p = JSNum.fin 0) ∧
    ∃ mn mx : ℚ, minValue pins = JSNum.fin mn ∧ maxValue pins = JSNum.fin mx ∧ mn < mx ∧
      (∃ p ∈ pins, pinValue p = JSNum.fin mn) ∧ (∃ p ∈ pins, pinValue p = JSNum.fin mx) ∧
      ∀ p ∈ pins, ∃ v : ℚ, pinValue p = JSNum.fin v ∧ mn ≤ v ∧ v ≤ mx ∧
        normalizedValue pins p = JSNum.fin ((v - mn) / (mx - mn)) ∧
        0 ≤ (v - mn) / (mx - mn) ∧ (v - mn) / (mx - mn) ≤ 1 ∧
        (v = mn → normalizedValue pins p = JSNum.fin 0) ∧
        (v = mx → normalizedValue pins p = JSNum.fin 1) ∧
        (heatmapFill pins p).centreAlpha = JSNum.fin ((v - mn) / (mx - mn) * (6 / 10)) := by
  obtain ⟨mn, mx, hmin, hmax, hatmin, hatmax, hall⟩ := extremes_of_finite pins hne hfin
  have hltq : mn < mx := by simpa [hmin, hmax, JSNum.lt] using hlt
  have hpos : 0 < mx - mn := sub_pos.mpr hltq
  refine ⟨fun p hp => by simp [pinValue, hp, JSNum.orElse, JSNum.toBoolean],
    mn, mx, hmin, hmax, hltq, hatmin, hatmax, ?_⟩
  intro p hp
  obtain ⟨v, hv, hlo, hhi⟩ := hall p hp
  have hnorm : normalizedValue pins p = JSNum.fin ((v - mn) / (mx - mn)) := by
    simp [normalizedValue, hv, hmin, hmax, JSNum.sub, JSNum.div, ne_of_gt hpos]
  refine ⟨v, hv, hlo, hhi, hnorm, ?_, ?_, ?_, ?_, ?_⟩
  · exact div_nonneg (sub_nonneg.mpr hlo) (le_of_lt hpos)
  · rw [div_le_one hpos]
    linarith
  · intro h
    rw [hnorm, h]
    simp
  · intro h
    rw [hnorm, h, div_self (ne_of_gt hpos)]
  · simp [heatmapFill, hnorm, JSNum.mul]

/-- The pins of values 10, 20 and 30 meet the three hypotheses of
`normalizedValue_of_finite`: the extremes are finite with min < max, and the normalized
values are 0, 0.5 and 1. -/
theorem normalizedValue_of_finite_witness :
    tenTwentyThirty ≠ []
    ∧ (∀ p ∈ tenTwentyThirty, (pinValue p).isFinite = true)
    ∧ JSNum.lt (minValue tenTwentyThirty) (maxValue tenTwentyThirty) = true
    ∧ tenTwentyThirty.map (normalizedValue tenTwentyThirty)
        = [JSNum.fin 0, JSNum.fin (1 / 2), JSNum.fin 1]
    ∧ ∃ mn mx : ℚ, minValue tenTwentyThirty = JSNum.fin mn ∧
        maxValue tenTwentyThirty = JSNum.fin mx ∧ mn < mx := by
  have h10 : pinValue (Pin.mk 0 0 "10") = JSNum.fin 10 := by
    simpa using pinValue_decimal 0 0 "10" 10 (by decide) (by decide)
  have h20 : pinValue (Pin.mk 5 5 "20") = JSNum.fin 20 := by
    simpa using pinValue_decimal 5 5 "20" 20 (by decide) (by decide)
  have h30 : pinValue (Pin.mk 9 9 "30") = JSNum.fin 30 := by
    simpa using pinValue_decimal 9 9 "30" 30 (by decide) (by decide)
  have hmin : minValue tenTwentyThirty = JSNum.fin 10 := by
    simp [tenTwentyThirty, minValue, JSNum.mathMin, h10, h20, h30, JSNum.min2_posInf_fin,
      JSNum.min2_fin]
    norm_num
  have hmax : maxValue tenTwentyThirty = JSNum.fin 30 := by
    simp [tenTwentyThirty, maxValue, JSNum.mathMax, h10, h20, h30, JSNum.max2_negInf_fin,
      JSNum.max2_fin]
    norm_num
  have hne : tenTwentyThirty ≠ [] := by simp [tenTwentyThirty]
  have hfin : ∀ p ∈ tenTwentyThirty, (pinValue p).isFinite = true := by
    intro p hp
    simp [tenTwentyThirty] at hp
    rcases hp with rfl | rfl | rfl
    · rw [h10]; rfl
    · rw [h20]; rfl
    · rw [h30]; rfl
  have hlt : JSNum.lt (minValue tenTwentyThirty) (maxValue tenTwentyThirty) = true := by
    rw [hmin, hmax]
    simp [JSNum.lt]
    norm_num
  obtain ⟨_, mn, mx, hmn, hmx, hltq, _, _, _⟩ :=
    normalizedValue_of_finite tenTwentyThirty hne hfin hlt
  refine ⟨hne, hfin, hlt, ?_, mn, mx, hmn, hmx, hltq⟩
  have hnorm : ∀ p : Pin, normalizedValue tenTwentyThirty p
      = JSNum.div (JSNum.sub (pinValue p) (JSNum.fin 10))
          (JSNum.sub (JSNum.fin 30) (JSNum.fin 10)) := by
    intro p
    rw [normalizedValue, hmin, hmax]
  have hlist : tenTwentyThirty.map (normalizedValue tenTwentyThirty)
      = [normalizedValue tenTwentyThirty (Pin.mk 0 0 "10"),
         normalizedValue tenTwentyThirty (Pin.mk 5 5 "20"),
         normalizedValue tenTwentyThirty (Pin.mk 9 9 "30")] := rfl
  rw [hlist, hnorm, hnorm, hnorm, h10, h20, h30]
  simp [JSNum.sub, JSNum.div]
  norm_num

/-- C3, at the failing input: the pins of values `Infinity` and 1.  The list is non-empty and
its maximum, Infinity, exceeds its minimum, 1, yet the pin holding the maximum gets the
normalized value `(Infinity - 1) / (Infinity - 1)`, which is NaN: neither 1 nor a number
between 0 and 1.  The centre alpha of its gradient is NaN too, so `generateHeatmap` raises a
SyntaxError when it adds the colour stop, and draws no heatmap. -/
theorem normalizedValue_infinity_is_nan :
    JSNum.lt (minValue [Pin.mk 0 0 "Infinity", Pin.mk 5 5 "1"])
        (maxValue [Pin.mk 0 0 "Infinity", Pin.mk 5 5 "1"]) = true
    ∧ pinValue (Pin.mk 0 0 "Infinity") = maxValue [Pin.mk 0 0 "Infinity", Pin.mk 5 5 "1"]
    ∧ normalizedValue [Pin.mk 0 0 "Infinity", Pin.mk 5 5 "1"] (Pin.mk 0 0 "Infinity")
        = JSNum.nan
    ∧ (heatmapFill [Pin.mk 0 0 "Infinity", Pin.mk 5 5 "1"] (Pin.mk 0 0 "Infinity")).centreAlpha
        = JSNum.nan
    ∧ generateHeatmap [Pin.mk 0 0 "Infinity", Pin.mk 5 5 "1"]
        = Except.error JSError.syntaxError := by
  have hnan : (heatmapFill [Pin.mk 0 0 "Infinity", Pin.mk 5 5 "1"]
      (Pin.mk 0 0 "Infinity")).centreAlpha = JSNum.nan := by
    simp [heatmapFill, normalizedValue, minValue, maxValue, JSNum.mathMin, JSNum.mathMax,
      pinValue_infinity, pinValue_one, JSNum.min2, JSNum.max2, JSNum.lt, JSNum.sub, JSNum.div,
      JSNum.mul]
  refine ⟨?_, ?_, ?_, hnan, generateHeatmap_of_not_finite _ (Pin.mk 0 0 "Infinity")
    (List.mem_cons_self _ _) (by rw [hnan]; rfl)⟩
  · simp [minValue, maxValue, JSNum.mathMin, JSNum.mathMax,
      pinValue_infinity, pinValue_one, JSNum.min2, JSNum.max2, JSNum.lt]
  · simp [maxValue, JSNum.mathMax, pinValue_infinity, pinValue_one, JSNum.max2, JSNum.lt]
  · simp [normalizedValue, minValue, maxValue, JSNum.mathMin, JSNum.mathMax,
      pinValue_infinity, pinValue_one, JSNum.min2, JSNum.max2, JSNum.lt, JSNum.sub, JSNum.div]

theorem normalizedValue_of_equal_extremes (pins : List Pin) (pin : Pin) (m : ℚ)
    (hmin : minValue pins = JSNum.fin m) (hmax : maxValue pins = JSNum.fin m)
    (hv : pinValue pin = JSNum.fin m) :
    normalizedValue pins pin = JSNum.nan := by
  simp [normalizedValue, hmin, hmax, hv, JSNum.sub, JSNum.div]

/-- C4, at the failing inputs: for the pins of values 5 and 5, and for a single pin of value
5, `maxValue - minValue` is 0, the quotient is 0 / 0, and the normalized value of every pin
and the centre alpha of its gradient are NaN, not 0. -/
theorem normalizedValue_uniform_is_nan :
    JSNum.sub (maxValue [Pin.mk 0 0 "5", Pin.mk 9 9 "5"]) (minValue [Pin.mk 0 0 "5", Pin.mk 9 9 "5"])
      = JSNum.fin 0
    ∧ [Pin.mk 0 0 "5", Pin.mk 9 9 "5"].map (normalizedValue [Pin.mk 0 0 "5", Pin.mk 9 9 "5"])
      = [JSNum.nan, JSNum.nan]
    ∧ ([Pin.mk 0 0 "5", Pin.mk 9 9 "5"].map (heatmapFill [Pin.mk 0 0 "5", Pin.mk 9 9 "5"])).map
        (fun g => g.centreAlpha) = [JSNum.nan, JSNum.nan]
    ∧ normalizedValue [Pin.mk 0 0 "5"] (Pin.mk 0 0 "5") = JSNum.nan := by
  have h5 : ∀ x y : ℚ, pinValue (Pin.mk x y "5") = JSNum.fin 5 := by
    intro x y
    simpa using pinValue_decimal x y "5" 5 (by decide) (by decide)
  simp [heatmapFill, normalizedValue, minValue, maxValue, JSNum.mathMin, JSNum.mathMax,
    h5, JSNum.min2, JSNum.max2, JSNum.lt, JSNum.sub, JSNum.div, JSNum.mul]

/-! ## Pointer router: proofs -/

theorem startStroke_eq_withStroke (s : State) (a : ℕ) (x y : ℚ) (layer : Layer)
    (ha : s.activeLayerId = some a) (hp : layer.id = a → layer.paths.isSome = true) :
    startStroke s x y layer = Except.ok (withStroke a [Point.mk x y none] layer) := by
  unfold startStroke withStroke
  by_cases hid : layer.id = a
  · cases hpaths : layer.paths with
    | none => simp [hpaths] at hp; exact absurd hid hp
    | some paths => simp [ha, hid]
  · have hne : ¬ a = layer.id := fun h => hid h.symm
    simp [ha, hid, hne]

theorem extendStroke_withStroke (t : State) (a : ℕ) (x y : ℚ) (stroke : List Point)
    (layer : Layer) (ha : t.activeLayerId = some a) :
    extendStroke t x y (withStroke a stroke layer)
      = Except.ok (withStroke a (stroke ++ [Point.mk x y (some t.currentColor)]) layer) := by
  unfold extendStroke withStroke
  by_cases hid : layer.id = a
  · simp [ha, hid]
  · have hne : ¬ a = layer.id := fun h => hid h.symm
    simp [ha, hid, hne]

theorem find?_pins_withStroke (a : ℕ) (stroke : List Point) (base : List Layer) :
    (base.map (withStroke a stroke)).find? (fun l => decide (l.type = LayerType.pins))
      = (base.find? (fun l => decide (l.type = LayerType.pins))).map (withStroke a stroke) := by
  induction base with
  | nil => rfl
  | cons l rest ih =>
    have ht : (withStroke a stroke l).type = l.type := by
      unfold withStroke
      split_ifs <;> rfl
    by_cases hp : l.type = LayerType.pins
    · simp [List.find?, ht, hp]
    · simp [List.find?, ht, hp, ih]

theorem withStroke_pins (a : ℕ) (stroke : List Point) (l : Layer) :
    (withStroke a stroke l).pins = l.pins := by
  unfold withStroke
  split_ifs <;> rfl

/-- One move while a stroke is in progress on the layers of id `a`: the move runs to its end
and appends its point, tagged with the current colour, to that stroke. -/
theorem handleMouseMove_extends (base : List Layer) (a : ℕ) (rect : Rect) (e : MouseEvent)
    (t : State) (stroke : List Point)
    (hd : t.isDrawing = true) (htool : t.selectedTool = Tool.draw)
    (ha : t.activeLayerId = some a)
    (hpins : ∀ l ∈ base, l.type = LayerType.pins → l.pins.isSome = true)
    (hl : t.layers = base.map (withStroke a stroke)) :
    ∃ t', handleMouseMove t rect e = Outcome.done t' ∧ t'.isDrawing = true ∧
      t'.selectedTool = Tool.draw ∧ t'.activeLayerId = some a ∧
      t'.currentColor = t.currentColor ∧
      t'.layers = base.map (withStroke a (stroke ++
        [Point.mk (e.clientX - rect.left) (e.clientY - rect.top) (some t.currentColor)])) := by
  have hmap : mapThrowing (extendStroke t (e.clientX - rect.left) (e.clientY - rect.top))
      t.layers = Except.ok (base.map (withStroke a (stroke ++
        [Point.mk (e.clientX - rect.left) (e.clientY - rect.top) (some t.currentColor)]))) := by
    rw [hl]
    exact mapThrowing_map_ok _ _ _ base (fun l _ => extendStroke_withStroke t a _ _ stroke l ha)
  have hfind := find?_pins_withStroke a stroke base
  unfold handleMouseMove
  simp only [hd, htool, and_self, if_true, hmap]
  rw [hl, hfind]
  cases hf : base.find? (fun l => decide (l.type = LayerType.pins)) with
  | none => exact ⟨_, rfl, rfl, rfl, ha, rfl, rfl⟩
  | some pl =>
    have hmem := List.mem_of_find?_eq_some hf
    have htype : pl.type = LayerType.pins := by simpa using List.find?_some hf
    have hsome := hpins pl hmem htype
    cases hpl : pl.pins with
    | none => simp [hpl] at hsome
    | some pins =>
      simp only [Option.map_some', withStroke_pins, hpl]
      exact ⟨_, rfl, rfl, rfl, ha, rfl, rfl⟩

theorem handleMouseMoves_extend (base : List Layer) (a : ℕ) (rect : Rect)
    (hpins : ∀ l ∈ base, l.type = LayerType.pins → l.pins.isSome = true)
    (moves : List MouseEvent) :
    ∀ (t : State) (stroke : List Point), t.isDrawing = true → t.selectedTool = Tool.draw →
      t.activeLayerId = some a → t.layers = base.map (withStroke a stroke) →
      ∃ t', handleMouseMoves t rect moves = Outcome.done t' ∧ t'.isDrawing = true ∧
        t'.layers = base.map (withStroke a (stroke ++ moves.map (fun e =>
          Point.mk (e.clientX - rect.left) (e.clientY - rect.top) (some t.currentColor)))) := by
  induction moves with
  | nil =>
    intro t stroke hd _ _ hl
    exact ⟨t, rfl, hd, by simpa using hl⟩
  | cons e rest ih =>
    intro t stroke hd htool ha hl
    obtain ⟨t1, h1, hd1, htool1, ha1, hc1, hl1⟩ :=
      handleMouseMove_extends base a rect e t stroke hd htool ha hpins hl
    obtain ⟨t2, h2, hd2, hl2⟩ := ih t1 _ hd1 htool1 ha1 hl1
    refine ⟨t2, ?_, hd2, ?_⟩
    · simp [handleMouseMoves, h1, h2]
    · rw [hl2, hc1]
      simp

/-- C5: with the draw tool selected and the layers of the active id holding `paths`, a press
at `e0` followed by the moves `moves` runs to its end and leaves every layer of the active id
with exactly one more stroke, appended after its earlier strokes; the points of that stroke
are the press point followed by one point per move, in the order of the moves (so the stroke
has one point more than there are moves, starts at the press point and ends at the last
move).  Layers of another id are unchanged, and so is the order of the layers. -/
theorem press_then_moves_records_stroke (s : State) (rect : Rect) (a : ℕ) (e0 : MouseEvent)
    (moves : List MouseEvent) (promptResult : Option String)
    (htool : s.selectedTool = Tool.draw) (ha : s.activeLayerId = some a)
    (hex : ∃ l ∈ s.layers, l.id = a)
    (hpaths : ∀ l ∈ s.layers, l.id = a → l.paths.isSome = true)
    (hpins : ∀ l ∈ s.layers, l.type = LayerType.pins → l.pins.isSome = true) :
    ∃ s1 s2 stroke, handleMouseDown s rect e0 promptResult = Outcome.done s1 ∧
      handleMouseMoves s1 rect moves = Outcome.done s2 ∧
      stroke = Point.mk (e0.clientX - rect.left) (e0.clientY - rect.top) none ::
        moves.map (fun e =>
          Point.mk (e.clientX - rect.left) (e.clientY - rect.top) (some s.currentColor)) ∧
      s2.layers = s.layers.map (fun l =>
        if l.id = a then { l with paths := some (l.paths.getD [] ++ [stroke]) } else l) ∧
      stroke.map (fun p => (p.x, p.y))
        = (e0 :: moves).map (fun e => (e.clientX - rect.left, e.clientY - rect.top)) ∧
      stroke.length = moves.length + 1 := by
  obtain ⟨l0, hl0, hid0⟩ := hex
  have hfind : (s.layers.find? (fun l => decide (s.activeLayerId = some l.id))).isSome = true := by
    rw [List.find?_isSome]
    exact ⟨l0, hl0, by simp [ha, hid0]⟩
  have hmap : mapThrowing (startStroke s (e0.clientX - rect.left) (e0.clientY - rect.top)) s.layers
      = Except.ok (s.layers.map
          (withStroke a [Point.mk (e0.clientX - rect.left) (e0.clientY - rect.top) none])) :=
    mapThrowing_ok _ _ s.layers
      (fun l hl => startStroke_eq_withStroke s a _ _ l ha (hpaths l hl))
  have hdown : handleMouseDown s rect e0 promptResult = Outcome.done
      { s with isDrawing := true,
               lastPoint := some (e0.clientX - rect.left, e0.clientY - rect.top),
               layers := s.layers.map
                 (withStroke a [Point.mk (e0.clientX - rect.left) (e0.clientY - rect.top) none]) } := by
    unfold handleMouseDown
    cases hf : s.layers.find? (fun l => decide (s.activeLayerId = some l.id)) with
    | none => simp [hf] at hfind
    | some l => simp [htool, hmap]
  obtain ⟨s2, hmoves, _, hl2⟩ := handleMouseMoves_extend s.layers a rect hpins moves
    { s with isDrawing := true,
             lastPoint := some (e0.clientX - rect.left, e0.clientY - rect.top),
             layers := s.layers.map
               (withStroke a [Point.mk (e0.clientX - rect.left) (e0.clientY - rect.top) none]) }
    [Point.mk (e0.clientX - rect.left) (e0.clientY - rect.top) none] rfl htool ha rfl
  refine ⟨_, s2, _, hdown, hmoves, rfl, ?_, ?_, ?_⟩
  · rw [hl2]
    rfl
  · simp
  · simp

/-- Witness of C5: on the sample drawing state, a press at (0,0) and moves through (3,4) to
(10,10) with the canvas at the origin. -/
theorem press_then_moves_records_stroke_witness :
    drawingState.selectedTool = Tool.draw ∧ drawingState.activeLayerId = some 2
    ∧ (∃ l ∈ drawingState.layers, l.id = 2)
    ∧ (∀ l ∈ drawingState.layers, l.id = 2 → l.paths.isSome = true)
    ∧ (∀ l ∈ drawingState.layers, l.type = LayerType.pins → l.pins.isSome = true)
    ∧ ∃ s1 s2 stroke,
      handleMouseDown drawingState (Rect.mk 0 0) (MouseEvent.mk 0 0) none = Outcome.done s1 ∧
      handleMouseMoves s1 (Rect.mk 0 0) [MouseEvent.mk 3 4, MouseEvent.mk 10 10]
        = Outcome.done s2 ∧
      stroke = Point.mk ((MouseEvent.mk 0 0).clientX - (Rect.mk 0 0).left)
          ((MouseEvent.mk 0 0).clientY - (Rect.mk 0 0).top) none ::
        [MouseEvent.mk 3 4, MouseEvent.mk 10 10].map (fun e =>
          Point.mk (e.clientX - (Rect.mk 0 0).left) (e.clientY - (Rect.mk 0 0).top)
            (some drawingState.currentColor)) ∧
      s2.layers = drawingState.layers.map (fun l =>
        if l.id = 2 then { l with paths := some (l.paths.getD [] ++ [stroke]) } else l) ∧
      stroke.map (fun p => (p.x, p.y))
        = (MouseEvent.mk 0 0 :: [MouseEvent.mk 3 4, MouseEvent.mk 10 10]).map
            (fun e => (e.clientX - (Rect.mk 0 0).left, e.clientY - (Rect.mk 0 0).top)) ∧
      stroke.length = [MouseEvent.mk 3 4, MouseEvent.mk 10 10].length + 1 :=
  have h1 : ∃ l ∈ drawingState.layers, l.id = 2 := by decide
  have h2 : ∀ l ∈ drawingState.layers, l.id = 2 → l.paths.isSome = true := by decide
  have h3 : ∀ l ∈ drawingState.layers, l.type = LayerType.pins → l.pins.isSome = true := by
    decide
  ⟨rfl, rfl, h1, h2, h3,
    press_then_moves_records_stroke drawingState (Rect.mk 0 0) 2 (MouseEvent.mk 0 0)
      [MouseEvent.mk 3 4, MouseEvent.mk 10 10] none rfl rfl h1 h2 h3⟩

theorem map_eq_self_iff {α : Type} (f : α → α) (xs : List α) :
    xs.map f = xs ↔ ∀ x ∈ xs, f x = x := by
  induction xs with
  | nil => simp
  | cons x rest ih => simp [ih]

theorem appendPin_of_active (s : State) (x y : ℚ) (value : String) (layer : Layer)
    (h : s.activeLayerId = some layer.id) : appendPin s x y value layer ≠ layer := by
  intro heq
  have hp := congrArg Layer.pins heq
  simp only [appendPin, h, if_true] at hp
  cases hpins : layer.pins with
  | none => simp [hpins] at hp
  | some pins =>
    rw [hpins] at hp
    have hlen := congrArg (fun o : Option (List Pin) => (o.getD []).length) hp
    simp at hlen

theorem appendPin_of_not_active (s : State) (x y : ℚ) (value : String) (layer : Layer)
    (h : s.activeLayerId ≠ some layer.id) : appendPin s x y value layer = layer := by
  simp [appendPin, h]

theorem appendPin_frame (s : State) (x y : ℚ) (value : String) (layer : Layer) :
    (appendPin s x y value layer).id = layer.id ∧
    (appendPin s x y value layer).visible = layer.visible ∧
    (appendPin s x y value layer).opacity = layer.opacity ∧
    (appendPin s x y value layer).paths = layer.paths ∧
    (appendPin s x y value layer).image = layer.image := by
  unfold appendPin
  split_ifs <;> exact ⟨rfl, rfl, rfl, rfl, rfl⟩

/-- C6: with the pin tool selected a press runs to its end, and it changes the layer list
exactly when the prompt returned a non-empty text and some layer has the active id.  On a
non-empty text `v` every layer of the active id gets the pin of the press point and value `v`
appended to its pins (no pins counting as none) and the type `pins`; its id, visibility,
opacity, paths and image stay, the other layers stay, and so do the order of the layers and
every other field of the state.  On an empty text or a cancelled prompt, and when no layer
is active, the state is unchanged. -/
theorem pin_press_appends_pin (s : State) (rect : Rect) (e : MouseEvent)
    (promptResult : Option String) (htool : s.selectedTool = Tool.pin) :
    ∃ s', handleMouseDown s rect e promptResult = Outcome.done s' ∧
      (s'.layers ≠ s.layers ↔
        (∃ v, promptResult = some v ∧ v ≠ "") ∧ ∃ l ∈ s.layers, s.activeLayerId = some l.id) ∧
      (∀ v, promptResult = some v → v ≠ "" →
        s' = { s with layers := s.layers.map (fun l =>
          if s.activeLayerId = some l.id then
            { l with
              type := LayerType.pins
              pins := some (l.pins.getD [] ++
                [Pin.mk (e.clientX - rect.left) (e.clientY - rect.top) v]) }
          else l) }) ∧
      s'.layers.map (fun l => (l.id, l.visible, l.opacity, l.paths, l.image))
        = s.layers.map (fun l => (l.id, l.visible, l.opacity, l.paths, l.image)) ∧
      (promptResult = none ∨ promptResult = some "" → s' = s) ∧
      ((∀ l ∈ s.layers, s.activeLayerId ≠ some l.id) → s' = s) := by
  cases promptResult with
  | none =>
    refine ⟨s, by simp [handleMouseDown, htool], ?_, ?_, rfl, fun _ => rfl, fun _ => rfl⟩
    · simp
    · intro v hv
      cases hv
  | some value =>
    by_cases hempty : value = ""
    · refine ⟨s, by simp [handleMouseDown, htool, hempty], ?_, ?_, rfl, fun _ => rfl,
        fun _ => rfl⟩
      · simp [hempty]
      · intro v hv hne
        simp only [Option.some.injEq] at hv
        exact absurd (hv ▸ hempty) hne
    · have hdown : handleMouseDown s rect e (some value) = Outcome.done
          { s with layers :=
              (s.layers.map (appendPin s (e.clientX - rect.left) (e.clientY - rect.top) value)) } := by
        simp [handleMouseDown, htool, hempty]
      have hself : s.layers.map
            (appendPin s (e.clientX - rect.left) (e.clientY - rect.top) value) = s.layers ↔
          ∀ l ∈ s.layers, s.activeLayerId ≠ some l.id := by
        rw [map_eq_self_iff]
        constructor
        · intro h l hl hact
          exact appendPin_of_active s _ _ value l hact (h l hl)
        · intro h l hl
          exact appendPin_of_not_active s _ _ value l (h l hl)
      refine ⟨_, hdown, ?_, ?_, ?_, ?_, ?_⟩
      · show ¬ (s.layers.map _ = s.layers) ↔ _
        rw [hself]
        constructor
        · intro h
          push_neg at h
          exact ⟨⟨value, rfl, hempty⟩, h⟩
        · rintro ⟨_, l, hl, hact⟩ h
          exact h l hl hact
      · intro v hv _
        simp only [Option.some.injEq] at hv
        subst hv
        rfl
      · show (s.layers.map _).map _ = _
        rw [List.map_map]
        apply List.map_congr_left
        intro l _
        obtain ⟨h1, h2, h3, h4, h5⟩ :=
          appendPin_frame s (e.clientX - rect.left) (e.clientY - rect.top) value l
        simp [h1, h2, h3, h4, h5]
      · intro h
        rcases h with h | h
        · cases h
        · simp only [Option.some.injEq] at h
          exact absurd h hempty
      · intro h
        have := hself.mpr h
        show ({ s with layers := s.layers.map _ } : State) = s
        rw [this]

/-- Witness of C6: on the sample pinning state the press at (30,40) with the text 7 turns the
active drawing layer into a pin-set layer holding that pin, and leaves the image layer. -/
theorem pin_press_appends_pin_witness :
    pinningState.selectedTool = Tool.pin ∧
    ∃ s', handleMouseDown pinningState (Rect.mk 0 0) (MouseEvent.mk 30 40) (some "7")
        = Outcome.done s' ∧
      s'.layers = [sampleImage,
        { sampleDrawing with type := LayerType.pins, pins := some [Pin.mk 30 40 "7"] }] := by
  obtain ⟨s', hdown, _, hval, _⟩ :=
    pin_press_appends_pin pinningState (Rect.mk 0 0) (MouseEvent.mk 30 40) (some "7") rfl
  refine ⟨rfl, s', hdown, ?_⟩
  rw [hval "7" rfl (by decide)]
  simp [pinningState, sampleImage, sampleDrawing]

theorem extendStroke_total (s : State) (x y : ℚ) (layer : Layer)
    (h : s.activeLayerId = some layer.id → ∃ ps, layer.paths = some ps ∧ ps ≠ []) :
    ∃ l', extendStroke s x y layer = Except.ok l' := by
  unfold extendStroke
  by_cases hact : s.activeLayerId = some layer.id
  · obtain ⟨ps, hps, hne⟩ := h hact
    cases hlast : ps.getLast? with
    | none => exact absurd (List.getLast?_eq_none_iff.mp hlast) hne
    | some cur => simp [hact, hps, hlast]
  · exact ⟨layer, by simp [hact]⟩

theorem find?_append_of_none {α : Type} (p : α → Bool) (before : List α) (x : α)
    (after : List α) (hb : ∀ a ∈ before, p a = false) (hx : p x = true) :
    (before ++ x :: after).find? p = some x := by
  induction before with
  | nil => simp [List.find?, hx]
  | cons a rest ih =>
    have ha := hb a (List.mem_cons_self _ _)
    simp [List.find?, ha, ih (fun a' ha' => hb a' (List.mem_cons_of_mem _ ha'))]

theorem hypotLessThan_ten_iff (a b : ℚ) :
    hypotLessThan a b 10 = true ↔ Real.sqrt ((a : ℝ) ^ 2 + (b : ℝ) ^ 2) < 10 := by
  rw [Real.sqrt_lt' (by norm_num : (0 : ℝ) < 10)]
  have hcast : ((a * a + b * b : ℚ) : ℝ) = (a : ℝ) ^ 2 + (b : ℝ) ^ 2 := by
    push_cast
    ring
  rw [← hcast]
  have h100 : ((10 : ℝ)) ^ 2 = ((10 * 10 : ℚ) : ℝ) := by norm_num
  rw [h100, Rat.cast_lt]
  simp [hypotLessThan]

/-- The result of `handleMouseMove` on a state in which the drawing part cannot raise: the
move runs to its end and sets the hovered pin from the first layer of type `pins`. -/
theorem handleMouseMove_hover (s : State) (rect : Rect) (e : MouseEvent)
    (hstroke : s.isDrawing = true → s.selectedTool = Tool.draw →
      ∀ l ∈ s.layers, s.activeLayerId = some l.id → ∃ ps, l.paths = some ps ∧ ps ≠ [])
    (hpins : ∀ l ∈ s.layers, l.type = LayerType.pins → l.pins.isSome = true) :
    ∃ s', handleMouseMove s rect e = Outcome.done s' ∧
      s'.hoveredPin =
        match s.layers.find? (fun l => decide (l.type = LayerType.pins)) with
        | none => none
        | some pinsLayer => (pinsLayer.pins.getD []).find? (fun pin =>
            hypotLessThan (pin.x - (e.clientX - rect.left)) (pin.y - (e.clientY - rect.top)) 10) := by
  have hafter : ∃ s1 : State,
      (if s.isDrawing = true ∧ s.selectedTool = Tool.draw then
        match mapThrowing (extendStroke s (e.clientX - rect.left) (e.clientY - rect.top))
            s.layers with
        | Except.error err => Except.error err
        | Except.ok newLayers => Except.ok
            { s with layers := newLayers,
                     lastPoint := some (e.clientX - rect.left, e.clientY - rect.top) }
      else Except.ok s) = (Except.ok s1 : Except JSError State) := by
    by_cases hd : s.isDrawing = true ∧ s.selectedTool = Tool.draw
    · obtain ⟨ls, hls⟩ := mapThrowing_total
        (extendStroke s (e.clientX - rect.left) (e.clientY - rect.top)) s.layers
        (fun l hl => extendStroke_total s _ _ l (hstroke hd.1 hd.2 l hl))
      simp [hd, hls]
    · exact ⟨s, by simp [hd]⟩
  obtain ⟨s1, hs1⟩ := hafter
  unfold handleMouseMove
  simp only [hs1]
  cases hf : s.layers.find? (fun l => decide (l.type = LayerType.pins)) with
  | none => exact ⟨_, rfl, rfl⟩
  | some pl =>
    have hmem := List.mem_of_find?_eq_some hf
    have htype : pl.type = LayerType.pins := by simpa using List.find?_some hf
    have hsome := hpins pl hmem htype
    cases hpl : pl.pins with
    | none => simp [hpl] at hsome
    | some pins =>
      simp only [hpl]
      exact ⟨_, rfl, by simp⟩

/-- The hover detection of a move that runs to its end.  On a state in which a stroke in
progress has a current stroke to extend and every layer of type `pins` has pins,
`handleMouseMove` runs to its end and sets the hovered pin as follows.  With no layer of
type `pins` it is none.  Otherwise, taking the first layer of type `pins` in the layer list,
active or not, it is the first pin of that layer, in pin order, that passes the test
`Math.hypot(pin.x - x, pin.y - y) < 10`, and none when no pin of that layer passes.  Over
exact coordinates the test holds exactly when the Euclidean distance is strictly below
10. -/
theorem hovered_pin_after_move (s : State) (rect : Rect) (e : MouseEvent)
    (hstroke : s.isDrawing = true → s.selectedTool = Tool.draw →
      ∀ l ∈ s.layers, s.activeLayerId = some l.id → ∃ ps, l.paths = some ps ∧ ps ≠ [])
    (hpins : ∀ l ∈ s.layers, l.type = LayerType.pins → l.pins.isSome = true) :
    ∃ s', handleMouseMove s rect e = Outcome.done s' ∧
      ((∀ l ∈ s.layers, l.type ≠ LayerType.pins) → s'.hoveredPin = none) ∧
      (∀ before pinsLayer after pins, s.layers = before ++ pinsLayer :: after →
        (∀ l ∈ before, l.type ≠ LayerType.pins) → pinsLayer.type = LayerType.pins →
        pinsLayer.pins = some pins →
          (∀ pin, s'.hoveredPin = some pin ↔
            ∃ pre post, pins = pre ++ pin :: post ∧
              hypotLessThan (pin.x - (e.clientX - rect.left))
                (pin.y - (e.clientY - rect.top)) 10 = true ∧
              ∀ q ∈ pre, hypotLessThan (q.x - (e.clientX - rect.left))
                (q.y - (e.clientY - rect.top)) 10 = false) ∧
          (s'.hoveredPin = none ↔
            ∀ q ∈ pins, hypotLessThan (q.x - (e.clientX - rect.left))
              (q.y - (e.clientY - rect.top)) 10 = false)) ∧
      (∀ a b : ℚ, hypotLessThan a b 10 = true ↔
        Real.sqrt ((a : ℝ) ^ 2 + (b : ℝ) ^ 2) < 10) := by
  obtain ⟨s', hmove, hhover⟩ := handleMouseMove_hover s rect e hstroke hpins
  refine ⟨s', hmove, ?_, ?_, hypotLessThan_ten_iff⟩
  · intro hnone
    have hf : s.layers.find? (fun l => decide (l.type = LayerType.pins)) = none := by
      rw [List.find?_eq_none]
      intro l hl
      simpa using hnone l hl
    rw [hhover, hf]
  · intro before pinsLayer after pins hlayers hbefore htype hp
    have hf : s.layers.find? (fun l => decide (l.type = LayerType.pins)) = some pinsLayer := by
      rw [hlayers]
      exact find?_append_of_none _ before pinsLayer after
        (fun l hl => by simpa using hbefore l hl) (by simpa using htype)
    rw [hf] at hhover
    simp only [hp, Option.getD_some] at hhover
    rw [hhover]
    constructor
    · intro pin
      rw [List.find?_eq_some]
      constructor
      · rintro ⟨hpin, pre, post, hsplit, hpre⟩
        exact ⟨pre, post, hsplit, hpin, fun q hq => by simpa using hpre q hq⟩
      · rintro ⟨pre, post, hsplit, hpin, hpre⟩
        exact ⟨hpin, pre, post, hsplit, fun q hq => by simpa using hpre q hq⟩
    · rw [List.find?_eq_none]
      constructor
      · intro h q hq
        simpa using h q hq
      · intro h q hq
        simpa using h q hq

/-- On the sample heatmap state, whose only layer holds a pin at (10,10), the
pointer at distance 9.99 from that pin hovers it, and the pointers at distance 10 and at
distance 10.01 hover nothing. -/
theorem hovered_pin_after_move_witness :
    (heatmapState.isDrawing = true → heatmapState.selectedTool = Tool.draw →
      ∀ l ∈ heatmapState.layers, heatmapState.activeLayerId = some l.id →
        ∃ ps, l.paths = some ps ∧ ps ≠ [])
    ∧ (∀ l ∈ heatmapState.layers, l.type = LayerType.pins → l.pins.isSome = true)
    ∧ (∃ s', handleMouseMove heatmapState (Rect.mk 0 0) (MouseEvent.mk (1999 / 100) 10)
          = Outcome.done s' ∧ s'.hoveredPin = some (Pin.mk 10 10 "1"))
    ∧ (∃ s', handleMouseMove heatmapState (Rect.mk 0 0) (MouseEvent.mk 20 10)
          = Outcome.done s' ∧ s'.hoveredPin = none)
    ∧ (∃ s', handleMouseMove heatmapState (Rect.mk 0 0) (MouseEvent.mk (2001 / 100) 10)
          = Outcome.done s' ∧ s'.hoveredPin = none) := by
  have h1 : heatmapState.isDrawing = true → heatmapState.selectedTool = Tool.draw →
      ∀ l ∈ heatmapState.layers, heatmapState.activeLayerId = some l.id →
        ∃ ps, l.paths = some ps ∧ ps ≠ [] := by
    intro h
    cases h
  have h2 : ∀ l ∈ heatmapState.layers, l.type = LayerType.pins → l.pins.isSome = true := by
    decide
  have hl : heatmapState.layers = [] ++ samplePins :: [] := rfl
  have hp : samplePins.pins = some [Pin.mk 10 10 "1", Pin.mk 200 200 "2"] := rfl
  refine ⟨h1, h2, ?_, ?_, ?_⟩
  · obtain ⟨s', hmove, _, hfirst, _⟩ := hovered_pin_after_move heatmapState (Rect.mk 0 0)
      (MouseEvent.mk (1999 / 100) 10) h1 h2
    refine ⟨s', hmove, ?_⟩
    rw [(hfirst [] samplePins [] _ hl (by simp) rfl hp).1]
    refine ⟨[], [Pin.mk 200 200 "2"], rfl, ?_, by simp⟩
    simp [hypotLessThan]
    norm_num
  · obtain ⟨s', hmove, _, hfirst, _⟩ := hovered_pin_after_move heatmapState (Rect.mk 0 0)
      (MouseEvent.mk 20 10) h1 h2
    refine ⟨s', hmove, ?_⟩
    rw [(hfirst [] samplePins [] _ hl (by simp) rfl hp).2]
    intro q hq
    simp at hq
    rcases hq with rfl | rfl <;> simp [hypotLessThan] <;> norm_num
  · obtain ⟨s', hmove, _, hfirst, _⟩ := hovered_pin_after_move heatmapState (Rect.mk 0 0)
      (MouseEvent.mk (2001 / 100) 10) h1 h2
    refine ⟨s', hmove, ?_⟩
    rw [(hfirst [] samplePins [] _ hl (by simp) rfl hp).2]
    intro q hq
    simp at hq
    rcases hq with rfl | rfl <;> simp [hypotLessThan] <;> norm_num

/-! ## Layer store: proofs -/

/-- C8: `deleteLayer(d)` keeps exactly the layers whose id is not `d`, in their original
order; it clears the active-layer selection when `d` is the active id and leaves it as it is
otherwise; no other field of the state changes. -/
theorem deleteLayer_removes_and_deselects (s : State) (d : ℕ) :
    (deleteLayer s d).layers = s.layers.filter (fun l => decide (l.id ≠ d)) ∧
    (∀ l, l ∈ (deleteLayer s d).layers ↔ l ∈ s.layers ∧ l.id ≠ d) ∧
    List.Sublist (deleteLayer s d).layers s.layers ∧
    (s.activeLayerId = some d → (deleteLayer s d).activeLayerId = none) ∧
    (s.activeLayerId ≠ some d → (deleteLayer s d).activeLayerId = s.activeLayerId) ∧
    deleteLayer s d = { s with layers := (deleteLayer s d).layers,
                               activeLayerId := (deleteLayer s d).activeLayerId } := by
  refine ⟨rfl, ?_, ?_, ?_, ?_, rfl⟩
  · intro l
    simp [deleteLayer]
  · exact List.filter_sublist _
  · intro h
    simp [deleteLayer, h]
  · intro h
    simp [deleteLayer, h]

theorem findIndexFrom_eq {α : Type} (p : α → Bool) (xs : List α) :
    ∀ (k i : ℕ) (x : α), xs[i]? = some x → p x = true →
      (∀ i' < i, ∀ y, xs[i']? = some y → p y = false) →
      findIndexFrom p xs k = ((k + i : ℕ) : ℤ) := by
  induction xs with
  | nil =>
    intro k i x hx
    simp at hx
  | cons a rest ih =>
    intro k i x hx hp hbefore
    cases i with
    | zero =>
      simp at hx
      subst hx
      simp [findIndexFrom, hp]
    | succ i =>
      have ha : p a = false := hbefore 0 (Nat.succ_pos i) a (by simp)
      have hrec := ih (k + 1) i x (by simpa using hx) hp
        (fun i' hi' y hy => hbefore (i' + 1) (Nat.succ_lt_succ hi') y (by simpa using hy))
      simp only [findIndexFrom, ha]
      rw [hrec]
      simp
      omega

theorem spliceStart_of_le (len i : ℕ) (h : i ≤ len) : spliceStart len (i : ℤ) = i := by
  unfold spliceStart
  have hneg : ¬ ((i : ℤ) < 0) := by omega
  simp [hneg, h]

theorem perm_cons_eraseIdx_of_getElem? {α : Type} (xs : List α) :
    ∀ (i : ℕ) (x : α), xs[i]? = some x → (x :: xs.eraseIdx i).Perm xs := by
  induction xs with
  | nil =>
    intro i x hx
    simp at hx
  | cons a rest ih =>
    intro i x hx
    cases i with
    | zero =>
      simp at hx
      subst hx
      simp
    | succ i =>
      have hrec := ih i x (by simpa using hx)
      simp only [List.eraseIdx_cons_succ]
      exact (List.Perm.swap a x _).trans (List.Perm.cons a hrec)

theorem id_ne_of_nodup (xs : List Layer) (hn : (xs.map (fun l => l.id)).Nodup) (i j : ℕ)
    (a b : Layer) (hi : xs[i]? = some a) (hj : xs[j]? = some b) (hij : i ≠ j) :
    a.id ≠ b.id := by
  intro h
  have hi' : (xs.map (fun l => l.id))[i]? = some a.id := by simp [hi]
  have hj' : (xs.map (fun l => l.id))[j]? = some a.id := by simp [hj, h]
  have hilt : i < (xs.map (fun l => l.id)).length := by
    by_contra hge
    rw [List.getElem?_eq_none (not_lt.mp hge)] at hi'
    cases hi'
  have hjlt : j < (xs.map (fun l => l.id)).length := by
    by_contra hge
    rw [List.getElem?_eq_none (not_lt.mp hge)] at hj'
    cases hj'
  rcases Nat.lt_or_gt_of_ne hij with hlt | hgt
  · exact (List.nodup_iff_getElem?_ne_getElem?.mp hn i j hlt hjlt) (hi'.trans hj'.symm)
  · exact (List.nodup_iff_getElem?_ne_getElem?.mp hn j i hgt hilt) (hj'.trans hi'.symm)

/-- The layer list after a drop of the layer at index `i` onto the layer at index `j`. -/
theorem handleDrop_layers (s : State) (i j : ℕ) (dragged target : Layer)
    (hnodup : (s.layers.map (fun l => l.id)).Nodup)
    (hi : s.layers[i]? = some dragged) (hj : s.layers[j]? = some target) (hij : i ≠ j)
    (hdrag : s.draggedLayer = some dragged.id) :
    handleDrop s target.id = { s with
      layers := (s.layers.eraseIdx i).insertIdx j dragged
      draggedLayer := none
      dropTarget := none } := by
  have hilt : i < s.layers.length := by
    by_contra hge
    rw [List.getElem?_eq_none (not_lt.mp hge)] at hi
    cases hi
  have hjlt : j < s.layers.length := by
    by_contra hge
    rw [List.getElem?_eq_none (not_lt.mp hge)] at hj
    cases hj
  have hne : dragged.id ≠ target.id := id_ne_of_nodup s.layers hnodup i j _ _ hi hj hij
  have hnot : ¬ s.draggedLayer = some target.id := by
    rw [hdrag]
    simpa using hne
  have hdi : findIndex (fun l => decide (s.draggedLayer = some l.id)) s.layers = (i : ℤ) := by
    have := findIndexFrom_eq (fun l => decide (s.draggedLayer = some l.id)) s.layers 0 i dragged
      hi (by simp [hdrag]) (fun i' hi' y hy => by
        have := id_ne_of_nodup s.layers hnodup i i' _ _ hi hy (by omega)
        simpa [hdrag] using this)
    simpa [findIndex] using this
  have hti : findIndex (fun l => decide (l.id = target.id)) s.layers = (j : ℤ) := by
    have := findIndexFrom_eq (fun l => decide (l.id = target.id)) s.layers 0 j target
      hj (by simp) (fun j' hj' y hy => by
        have := id_ne_of_nodup s.layers hnodup j' j _ _ hy hj (by omega)
        simpa using this)
    simpa [findIndex] using this
  have hlen : (s.layers.eraseIdx i).length = s.layers.length - 1 :=
    List.length_eraseIdx_of_lt hilt
  unfold handleDrop
  simp only [hnot, if_false, hdi, hti, spliceStart_of_le _ _ (le_of_lt hilt), hi]
  rw [spliceStart_of_le _ _ (by rw [hlen]; omega)]

theorem heatmapFill_one_two (x₁ y₁ x₂ y₂ : ℚ) :
    (heatmapFill [Pin.mk x₁ y₁ "1", Pin.mk x₂ y₂ "2"] (Pin.mk x₁ y₁ "1")).centreAlpha
      = JSNum.fin 0 ∧
    (heatmapFill [Pin.mk x₁ y₁ "1", Pin.mk x₂ y₂ "2"] (Pin.mk x₂ y₂ "2")).centreAlpha
      = JSNum.fin (6 / 10) := by
  constructor
  · simp [heatmapFill, normalizedValue, maxValue, minValue, JSNum.mathMax, JSNum.mathMin,
      pinValue_one, pinValue_two, JSNum.max2, JSNum.min2, JSNum.lt, JSNum.sub, JSNum.div,
      JSNum.mul]
    norm_num
  · simp [heatmapFill, normalizedValue, maxValue, minValue, JSNum.mathMax, JSNum.mathMin,
      pinValue_one, pinValue_two, JSNum.max2, JSNum.min2, JSNum.lt, JSNum.sub, JSNum.div,
      JSNum.mul]
    norm_num

/-- The heatmap of a single pin of value 5 raises: its centre alpha is NaN. -/
theorem generateHeatmap_single_five (x y : ℚ) :
    (heatmapFill [Pin.mk x y "5"] (Pin.mk x y "5")).centreAlpha = JSNum.nan ∧
    generateHeatmap [Pin.mk x y "5"] = Except.error JSError.syntaxError := by
  have h5 : pinValue (Pin.mk x y "5") = JSNum.fin 5 := by
    simpa using pinValue_decimal x y "5" 5 (by decide) (by decide)
  have hnan : (heatmapFill [Pin.mk x y "5"] (Pin.mk x y "5")).centreAlpha = JSNum.nan := by
    simp [heatmapFill, normalizedValue, minValue, maxValue, JSNum.mathMin, JSNum.mathMax,
      h5, JSNum.min2, JSNum.max2, JSNum.lt, JSNum.sub, JSNum.div, JSNum.mul]
  exact ⟨hnan, generateHeatmap_of_not_finite _ (Pin.mk x y "5") (List.mem_singleton_self _)
    (by rw [hnan]; rfl)⟩

/-- A redraw that runs to its end renders a visible layer at index 0 after every other
layer. -/
theorem drawLayers_ends_with_top (s : State) (canvas : Canvas) (top : Layer)
    (rest : List Layer) (ops : List CanvasOp) (hl : s.layers = top :: rest)
    (hv : top.visible = true) (h : drawLayers s canvas = Except.ok ops) :
    ∃ before, ops = before ++ CanvasOp.setGlobalAlpha ((top.opacity : ℚ) / 100)
      :: layerOps s canvas top := by
  have hrender := renders_of_drawLayersLoop_ok s canvas s.layers.reverse _ ops h
  have hmain := drawLayersLoop_eq s canvas s.layers.reverse hrender
    [CanvasOp.clearRect 0 0 canvas.width canvas.height]
  rw [drawLayers, hmain] at h
  refine ⟨CanvasOp.clearRect 0 0 canvas.width canvas.height ::
    ((rest.reverse.filter (fun l => l.visible)).map (fun l =>
      CanvasOp.setGlobalAlpha ((l.opacity : ℚ) / 100) :: layerOps s canvas l)).flatten, ?_⟩
  have h' := Except.ok.inj h
  rw [← h', hl]
  simp [List.filter_append, hv]

/-- A redraw over layers that are renderable, with a heatmap that raises no error, runs to
its end. -/
theorem drawLayers_ok_of_renderable (s : State) (canvas : Canvas)
    (hr : ∀ l ∈ s.layers, l.visible = true →
      l.renderable = true ∧ l.heatmapSafe s.showHeatmap = true) :
    ∃ ops, drawLayers s canvas = Except.ok ops :=
  ⟨_, drawLayersLoop_eq s canvas s.layers.reverse
    (fun l hl hv =>
      renderLayer_ok_of_renderable s canvas l (hr l (List.mem_reverse.mp hl) hv).1
        (hr l (List.mem_reverse.mp hl) hv).2)
    [CanvasOp.clearRect 0 0 canvas.width canvas.height]⟩

theorem handleDrop_showHeatmap (s : State) (targetId : ℕ) :
    (handleDrop s targetId).showHeatmap = s.showHeatmap := by
  unfold handleDrop
  split_ifs <;> rfl

/-- C9, as stated, fails in two ways.  A hidden layer dragged from index 2 onto index 0 ends
at index 0, but the next `drawLayers` issues no call for it: the last layer it renders is the
drawing layer, at index 1.  And with heatmap mode on over a pin-set layer with a single pin,
the drawing layer dragged from index 2 onto index 0 ends at index 0, but the next
`drawLayers` raises in the heatmap of the pin-set layer and never reaches it. -/
theorem dragged_layer_not_painted_last :
    hiddenDragState.layers[2]? = some sampleImage
    ∧ hiddenDragState.layers[0]? = some sampleDrawing
    ∧ hiddenDragState.draggedLayer = some sampleImage.id
    ∧ (handleDrop hiddenDragState sampleDrawing.id).layers
        = [sampleImage, sampleDrawing, samplePins]
    ∧ sampleImage.visible = false
    ∧ drawLayer (handleDrop hiddenDragState sampleDrawing.id) sampleCanvas sampleImage
        = Except.ok []
    ∧ (∃ before, drawLayers (handleDrop hiddenDragState sampleDrawing.id) sampleCanvas
        = Except.ok (before ++ CanvasOp.setGlobalAlpha ((sampleDrawing.opacity : ℚ) / 100)
            :: layerOps (handleDrop hiddenDragState sampleDrawing.id) sampleCanvas
                sampleDrawing))
    ∧ abortDragState.layers[2]? = some sampleDrawing
    ∧ abortDragState.layers[0]? = some singlePinLayer
    ∧ abortDragState.draggedLayer = some sampleDrawing.id
    ∧ (handleDrop abortDragState singlePinLayer.id).layers
        = [sampleDrawing, singlePinLayer, sampleImage]
    ∧ sampleDrawing.visible = true
    ∧ drawLayers (handleDrop abortDragState singlePinLayer.id) sampleCanvas
        = Except.error JSError.syntaxError := by
  have hl1 : (handleDrop hiddenDragState sampleDrawing.id).layers
      = [sampleImage, sampleDrawing, samplePins] := rfl
  have hl2 : (handleDrop abortDragState singlePinLayer.id).layers
      = [sampleDrawing, singlePinLayer, sampleImage] := rfl
  refine ⟨rfl, rfl, rfl, hl1, rfl, rfl, ?_, rfl, rfl, rfl, hl2, rfl, ?_⟩
  · have hsafe : ∀ l ∈ (handleDrop hiddenDragState sampleDrawing.id).layers.reverse,
        l.visible = true → renderLayer (handleDrop hiddenDragState sampleDrawing.id)
          sampleCanvas l = Except.ok
            (layerOps (handleDrop hiddenDragState sampleDrawing.id) sampleCanvas l) := by
      intro l hl hv
      have hboth : ∀ l ∈ (handleDrop hiddenDragState sampleDrawing.id).layers.reverse,
          l.renderable = true ∧
            l.heatmapSafe (handleDrop hiddenDragState sampleDrawing.id).showHeatmap = true := by
        decide
      exact renderLayer_ok_of_renderable _ _ l (hboth l hl).1 (hboth l hl).2
    have hmain := drawLayersLoop_eq (handleDrop hiddenDragState sampleDrawing.id) sampleCanvas
      (handleDrop hiddenDragState sampleDrawing.id).layers.reverse hsafe
      [CanvasOp.clearRect 0 0 sampleCanvas.width sampleCanvas.height]
    refine ⟨CanvasOp.clearRect 0 0 sampleCanvas.width sampleCanvas.height ::
      CanvasOp.setGlobalAlpha ((samplePins.opacity : ℚ) / 100)
        :: layerOps (handleDrop hiddenDragState sampleDrawing.id) sampleCanvas samplePins, ?_⟩
    rw [drawLayers, hmain, hl1]
    have h1 : sampleImage.visible = false := rfl
    have h2 : sampleDrawing.visible = true := rfl
    have h3 : samplePins.visible = true := rfl
    simp [List.filter_cons, h1, h2, h3]
  · have hgen := (generateHeatmap_single_five 5 5).2
    have hrender : renderLayer (handleDrop abortDragState singlePinLayer.id) sampleCanvas
        singlePinLayer = Except.error JSError.syntaxError := by
      show (if (handleDrop abortDragState singlePinLayer.id).showHeatmap = true ∧
            [Pin.mk 5 5 "5"].length > 0 then
          match generateHeatmap [Pin.mk 5 5 "5"] with
          | Except.error err => Except.error err
          | Except.ok overlay => Except.ok
              (([Pin.mk 5 5 "5"].map
                (drawPin (handleDrop abortDragState singlePinLayer.id))).flatten ++ overlay)
        else Except.ok ([Pin.mk 5 5 "5"].map
          (drawPin (handleDrop abortDragState singlePinLayer.id))).flatten) = _
      rw [if_pos ⟨rfl, by decide⟩, hgen]
    have hlayer : drawLayer (handleDrop abortDragState singlePinLayer.id) sampleCanvas
        singlePinLayer = Except.error JSError.syntaxError := by
      have hv : singlePinLayer.visible = true := rfl
      simp only [drawLayer, hv, if_true, hrender]
    have himage : drawLayer (handleDrop abortDragState singlePinLayer.id) sampleCanvas
        sampleImage = Except.ok [] := rfl
    show drawLayersLoop (handleDrop abortDragState singlePinLayer.id) sampleCanvas
      [sampleImage, singlePinLayer, sampleDrawing] _ = _
    simp only [drawLayersLoop, himage, hlayer]

/-- C9, as amended: on a layer list with distinct ids, dropping the dragged layer, at index
`i`, onto the layer at another index `j` puts the dragged layer at index `j`; taking it out
again gives the list without index `i`, so the other layers keep their relative order; the
new list is a permutation of the old one, of the same length.  When `j` is 0 and the dragged
layer is visible, every next `drawLayers` that runs to its end renders it after every other
layer, and the next `drawLayers` does run to its end when the visible layers are renderable
with a heatmap that raises no error.  A hidden dragged layer issues no call. -/
theorem handleDrop_moves_dragged (s : State) (canvas : Canvas) (i j : ℕ)
    (dragged target : Layer)
    (hnodup : (s.layers.map (fun l => l.id)).Nodup)
    (hi : s.layers[i]? = some dragged) (hj : s.layers[j]? = some target) (hij : i ≠ j)
    (hdrag : s.draggedLayer = some dragged.id) :
    (handleDrop s target.id).layers = (s.layers.eraseIdx i).insertIdx j dragged ∧
    (handleDrop s target.id).layers[j]? = some dragged ∧
    (handleDrop s target.id).layers.eraseIdx j = s.layers.eraseIdx i ∧
    (handleDrop s target.id).layers.Perm s.layers ∧
    (handleDrop s target.id).layers.length = s.layers.length ∧
    (j = 0 → dragged.visible = true →
      (∀ ops, drawLayers (handleDrop s target.id) canvas = Except.ok ops →
        ∃ before, ops = before ++ CanvasOp.setGlobalAlpha ((dragged.opacity : ℚ) / 100)
          :: layerOps (handleDrop s target.id) canvas dragged) ∧
      ((∀ l ∈ s.layers, l.visible = true →
          l.renderable = true ∧ l.heatmapSafe s.showHeatmap = true) →
        ∃ before, drawLayers (handleDrop s target.id) canvas = Except.ok
          (before ++ CanvasOp.setGlobalAlpha ((dragged.opacity : ℚ) / 100)
            :: layerOps (handleDrop s target.id) canvas dragged))) ∧
    (dragged.visible = false →
      drawLayer (handleDrop s target.id) canvas dragged = Except.ok []) := by
  have hdrop := handleDrop_layers s i j dragged target hnodup hi hj hij hdrag
  have hilt : i < s.layers.length := by
    by_contra hge
    rw [List.getElem?_eq_none (not_lt.mp hge)] at hi
    cases hi
  have hjlt : j < s.layers.length := by
    by_contra hge
    rw [List.getElem?_eq_none (not_lt.mp hge)] at hj
    cases hj
  have hlen : (s.layers.eraseIdx i).length = s.layers.length - 1 :=
    List.length_eraseIdx_of_lt hilt
  have hjle : j ≤ (s.layers.eraseIdx i).length := by
    rw [hlen]
    omega
  have hlayers : (handleDrop s target.id).layers = (s.layers.eraseIdx i).insertIdx j dragged := by
    rw [hdrop]
  have hperm : (handleDrop s target.id).layers.Perm s.layers := by
    rw [hlayers]
    exact (List.perm_insertIdx dragged _ hjle).trans
      (perm_cons_eraseIdx_of_getElem? s.layers i dragged hi)
  refine ⟨hlayers, ?_, ?_, hperm, hperm.length_eq, ?_,
    fun hv => drawLayer_of_hidden _ canvas dragged hv⟩
  · rw [hlayers]
    have hlt : j < ((s.layers.eraseIdx i).insertIdx j dragged).length := by
      rw [List.length_insertIdx _ _ hjle]
      omega
    rw [List.getElem?_eq_getElem hlt, List.getElem_insertIdx_self _ _ _ hjle]
  · rw [hlayers, List.eraseIdx_insertIdx]
  · intro hj0 hv
    have hhead : (handleDrop s target.id).layers = dragged :: s.layers.eraseIdx i := by
      rw [hlayers, hj0]
      rfl
    have hends : ∀ ops, drawLayers (handleDrop s target.id) canvas = Except.ok ops →
        ∃ before, ops = before ++ CanvasOp.setGlobalAlpha ((dragged.opacity : ℚ) / 100)
          :: layerOps (handleDrop s target.id) canvas dragged :=
      fun ops hops =>
        drawLayers_ends_with_top (handleDrop s target.id) canvas dragged _ ops hhead hv hops
    refine ⟨hends, ?_⟩
    intro hr
    have hr' : ∀ l ∈ (handleDrop s target.id).layers, l.visible = true →
        l.renderable = true ∧
          l.heatmapSafe (handleDrop s target.id).showHeatmap = true := by
      intro l hl hvl
      rw [handleDrop_showHeatmap]
      exact hr l (hperm.subset hl) hvl
    obtain ⟨ops, hops⟩ := drawLayers_ok_of_renderable (handleDrop s target.id) canvas hr'
    obtain ⟨before, hbefore⟩ := hends ops hops
    exact ⟨before, by rw [hops, hbefore]⟩

/-- Witness of C9 as amended: with heatmap mode on over the three sample layers, the pin-set
layer at index 2 dropped onto the layer at index 0 ends at index 0, and the next `drawLayers`
runs to its end and renders it last. -/
theorem handleDrop_moves_dragged_witness :
    (stackHeatmapState.layers.map (fun l => l.id)).Nodup
    ∧ stackHeatmapState.layers[2]? = some samplePins
    ∧ stackHeatmapState.layers[0]? = some sampleDrawing
    ∧ stackHeatmapState.draggedLayer = some samplePins.id
    ∧ (∀ l ∈ stackHeatmapState.layers, l.visible = true →
        l.renderable = true ∧ l.heatmapSafe stackHeatmapState.showHeatmap = true)
    ∧ (handleDrop stackHeatmapState sampleDrawing.id).layers
        = [samplePins, sampleDrawing, sampleImage]
    ∧ ∃ before, drawLayers (handleDrop stackHeatmapState sampleDrawing.id) sampleCanvas
        = Except.ok (before ++ CanvasOp.setGlobalAlpha ((samplePins.opacity : ℚ) / 100)
          :: layerOps (handleDrop stackHeatmapState sampleDrawing.id) sampleCanvas
              samplePins) := by
  have hn : (stackHeatmapState.layers.map (fun l => l.id)).Nodup := by decide
  have hr : ∀ l ∈ stackHeatmapState.layers, l.visible = true →
      l.renderable = true ∧ l.heatmapSafe stackHeatmapState.showHeatmap = true := by
    intro l hl _
    have hmem : l = sampleDrawing ∨ l = sampleImage ∨ l = samplePins := by
      simpa [stackHeatmapState, stackState] using hl
    rcases hmem with rfl | rfl | rfl
    · exact ⟨rfl, rfl⟩
    · exact ⟨rfl, rfl⟩
    · refine ⟨rfl, ?_⟩
      show (!true || [Pin.mk 10 10 "1", Pin.mk 200 200 "2"].all (fun pin =>
        (heatmapFill [Pin.mk 10 10 "1", Pin.mk 200 200 "2"] pin).centreAlpha.isFinite)) = true
      simp [(heatmapFill_one_two 10 10 200 200).1, (heatmapFill_one_two 10 10 200 200).2,
        JSNum.isFinite]
  have h := handleDrop_moves_dragged stackHeatmapState sampleCanvas 2 0 samplePins
    sampleDrawing hn rfl rfl (by decide) rfl
  refine ⟨hn, rfl, rfl, rfl, hr, ?_, (h.2.2.2.2.2.1 rfl rfl).2 hr⟩
  rw [h.1]
  rfl

/-! ## Drawing state machine: proofs -/

theorem extendStroke_of_not_active (s : State) (x y : ℚ) (layer : Layer)
    (h : s.activeLayerId ≠ some layer.id) : extendStroke s x y layer = Except.ok layer := by
  simp [extendStroke, h]

theorem handleMouseMove_layers_of_no_active (s : State) (rect : Rect) (e : MouseEvent)
    (hnone : ∀ l ∈ s.layers, s.activeLayerId ≠ some l.id) :
    (handleMouseMove s rect e).state.layers = s.layers := by
  have hmap : mapThrowing (extendStroke s (e.clientX - rect.left) (e.clientY - rect.top))
      s.layers = Except.ok s.layers := by
    have := mapThrowing_ok (extendStroke s (e.clientX - rect.left) (e.clientY - rect.top))
      id s.layers (fun l hl => extendStroke_of_not_active s _ _ l (hnone l hl))
    simpa using this
  unfold handleMouseMove
  simp only [hmap]
  by_cases hd : s.isDrawing = true ∧ s.selectedTool = Tool.draw
  · simp only [hd, and_self, if_true]
    cases hf : s.layers.find? (fun l => decide (l.type = LayerType.pins)) with
    | none => rfl
    | some pl => cases hpl : pl.pins <;> simp only [hpl] <;> rfl
  · simp only [hd, if_false]
    cases hf : s.layers.find? (fun l => decide (l.type = LayerType.pins)) with
    | none => rfl
    | some pl => cases hpl : pl.pins <;> simp only [hpl] <;> rfl

/-- C10, as stated, fails on the sample idle state: the draw tool is selected, no layer is
active and no stroke is in progress, yet the press leaves `isDrawing` true (the layer list is
unchanged). -/
theorem press_without_active_layer_sets_isDrawing :
    idleDrawState.selectedTool = Tool.draw
    ∧ (∀ l ∈ idleDrawState.layers, idleDrawState.activeLayerId ≠ some l.id)
    ∧ idleDrawState.isDrawing = false
    ∧ ∃ s', handleMouseDown idleDrawState (Rect.mk 0 0) (MouseEvent.mk 5 5) none
        = Outcome.done s' ∧ s'.layers = idleDrawState.layers ∧ s'.isDrawing = true :=
  ⟨rfl, by decide, rfl, _, rfl, rfl, rfl⟩

theorem handleMouseMove_frame (t : State) (rect : Rect) (e : MouseEvent) :
    (handleMouseMove t rect e).state.isDrawing = t.isDrawing ∧
    (handleMouseMove t rect e).state.activeLayerId = t.activeLayerId ∧
    (handleMouseMove t rect e).state.selectedTool = t.selectedTool := by
  unfold handleMouseMove
  dsimp only
  by_cases hd : t.isDrawing = true ∧ t.selectedTool = Tool.draw
  · rw [if_pos hd]
    cases hm : mapThrowing (extendStroke t (e.clientX - rect.left) (e.clientY - rect.top))
        t.layers with
    | error err => exact ⟨rfl, rfl, rfl⟩
    | ok ls =>
      simp only []
      cases hf : t.layers.find? (fun l => decide (l.type = LayerType.pins)) with
      | none => exact ⟨rfl, rfl, rfl⟩
      | some pl =>
        cases hpl : pl.pins with
        | none =>
          simp only [hpl]
          exact ⟨rfl, rfl, rfl⟩
        | some pins =>
          simp only [hpl]
          exact ⟨rfl, rfl, rfl⟩
  · rw [if_neg hd]
    simp only []
    cases hf : t.layers.find? (fun l => decide (l.type = LayerType.pins)) with
    | none => exact ⟨rfl, rfl, rfl⟩
    | some pl =>
      cases hpl : pl.pins with
      | none =>
        simp only [hpl]
        exact ⟨rfl, rfl, rfl⟩
      | some pins =>
        simp only [hpl]
        exact ⟨rfl, rfl, rfl⟩

theorem handleMouseDown_isDrawing_of_draw (t : State) (r : Rect) (ev : MouseEvent)
    (pr : Option String) (ht : t.selectedTool = Tool.draw) :
    (handleMouseDown t r ev pr).state.isDrawing = true := by
  unfold handleMouseDown
  simp only [ht]
  cases t.layers.find? (fun l => decide (t.activeLayerId = some l.id)) with
  | none => rfl
  | some l =>
    cases mapThrowing (startStroke t (ev.clientX - r.left) (ev.clientY - r.top)) t.layers <;> rfl

theorem handleMouseDown_isDrawing_of_not_draw (t : State) (r : Rect) (ev : MouseEvent)
    (pr : Option String) (ht : t.selectedTool ≠ Tool.draw) :
    (handleMouseDown t r ev pr).state.isDrawing = t.isDrawing := by
  unfold handleMouseDown
  cases htt : t.selectedTool with
  | draw => exact absurd htt ht
  | move => rfl
  | pin =>
    cases pr with
    | none => rfl
    | some value =>
      by_cases hv : value = ""
      · simp [hv, Outcome.state]
      · simp [hv, Outcome.state]

theorem handleDrop_isDrawing (t : State) (targetId : ℕ) :
    (handleDrop t targetId).isDrawing = t.isDrawing := by
  unfold handleDrop
  split_ifs <;> rfl

/-- An action that takes `isDrawing` from false to true is a press with the draw tool
selected. -/
theorem step_enters_stroking (t : State) (a : Action)
    (hidle : t.isDrawing = false) (h : (step t a).isDrawing = true) :
    t.selectedTool = Tool.draw ∧ ∃ rect e promptResult, a = Action.mouseDown rect e promptResult := by
  cases a with
  | mouseDown rect e promptResult =>
    by_cases ht : t.selectedTool = Tool.draw
    · exact ⟨ht, rect, e, promptResult, rfl⟩
    · have := handleMouseDown_isDrawing_of_not_draw t rect e promptResult ht
      simp only [step] at h
      rw [this, hidle] at h
      cases h
  | mouseMove rect e =>
    simp only [step] at h
    rw [(handleMouseMove_frame t rect e).1, hidle] at h
    cases h
  | drop targetId =>
    simp only [step] at h
    rw [handleDrop_isDrawing, hidle] at h
    cases h
  | addLayer now =>
    have h' : t.isDrawing = true := h
    rw [hidle] at h'
    cases h'
  | upload now img =>
    have h' : t.isDrawing = true := h
    rw [hidle] at h'
    cases h'
  | selectLayer layerId =>
    have h' : t.isDrawing = true := h
    rw [hidle] at h'
    cases h'
  | selectTool tool =>
    have h' : t.isDrawing = true := h
    rw [hidle] at h'
    cases h'
  | selectColor color =>
    have h' : t.isDrawing = true := h
    rw [hidle] at h'
    cases h'
  | mouseUp =>
    have h' : false = true := h
    cases h'
  | changeOpacity value =>
    have h' : t.isDrawing = true := h
    rw [hidle] at h'
    cases h'
  | toggleHeatmap checked =>
    have h' : t.isDrawing = true := h
    rw [hidle] at h'
    cases h'
  | toggleLayerVisibility layerId =>
    have h' : t.isDrawing = true := h
    rw [hidle] at h'
    cases h'
  | deleteLayer layerId =>
    have h' : t.isDrawing = true := h
    rw [hidle] at h'
    cases h'
  | dragStart layerId =>
    have h' : t.isDrawing = true := h
    rw [hidle] at h'
    cases h'
  | dragOver targetId =>
    have h' : t.isDrawing = true := h
    rw [hidle] at h'
    cases h'

/-- Moves over a state in which no layer has the active id leave the layer list as it is. -/
theorem run_moves_layers_of_no_active (rect : Rect) (moves : List MouseEvent) :
    ∀ t : State, (∀ l ∈ t.layers, t.activeLayerId ≠ some l.id) →
      (run t (moves.map (fun e' => Action.mouseMove rect e'))).layers = t.layers := by
  induction moves with
  | nil =>
    intro t _
    rfl
  | cons e' rest ih =>
    intro t hnone
    have hl := handleMouseMove_layers_of_no_active t rect e' hnone
    have ha := (handleMouseMove_frame t rect e').2.1
    have hstep : run t ((e' :: rest).map (fun e' => Action.mouseMove rect e'))
        = run (handleMouseMove t rect e').state
            (rest.map (fun e' => Action.mouseMove rect e')) := rfl
    rw [hstep, ih (handleMouseMove t rect e').state (by rw [hl, ha]; exact hnone), hl]

/-- C10, as amended: with the draw tool selected and no layer active, a press runs to its end
and leaves the layer list unchanged, and so do the moves that follow it; but the press is
not ignored: `isDrawing` becomes true and `lastPoint` the press point, nothing else changes.
The stroking state is entered only by a press with the draw tool selected, a layer being
active or not: no other action, and no press with another tool, takes `isDrawing` from false
to true, and every press with the draw tool sets it.  `handleMouseUp`, bound to release and
to pointer-leave, always sets `isDrawing` to false. -/
theorem press_without_active_layer (s : State) (rect : Rect) (e : MouseEvent)
    (promptResult : Option String) (htool : s.selectedTool = Tool.draw)
    (hnone : ∀ l ∈ s.layers, s.activeLayerId ≠ some l.id) :
    handleMouseDown s rect e promptResult = Outcome.done
        { s with isDrawing := true,
                 lastPoint := some (e.clientX - rect.left, e.clientY - rect.top) }
    ∧ (∀ moves : List MouseEvent,
        (run (handleMouseDown s rect e promptResult).state
          (moves.map (fun e' => Action.mouseMove rect e'))).layers = s.layers)
    ∧ (∀ (t : State) (a : Action), t.isDrawing = false → (step t a).isDrawing = true →
        t.selectedTool = Tool.draw ∧
          ∃ r ev pr, a = Action.mouseDown r ev pr)
    ∧ (∀ (t : State) (picked : List Layer) (now : ℕ) (img : Image),
        (handleFileUpload t picked now img).isDrawing = t.isDrawing)
    ∧ (∀ (t : State) (r : Rect) (ev : MouseEvent) (pr : Option String),
        t.selectedTool = Tool.draw → (handleMouseDown t r ev pr).state.isDrawing = true)
    ∧ (∀ (t : State) (r : Rect) (ev : MouseEvent) (pr : Option String),
        t.selectedTool ≠ Tool.draw →
          (handleMouseDown t r ev pr).state.isDrawing = t.isDrawing)
    ∧ (∀ (t : State) (r : Rect) (ev : MouseEvent),
        (handleMouseMove t r ev).state.isDrawing = t.isDrawing)
    ∧ (∀ t : State,
        (handleMouseUp t).isDrawing = false ∧ (handleMouseUp t).layers = t.layers) := by
  have hfind : s.layers.find? (fun l => decide (s.activeLayerId = some l.id)) = none := by
    rw [List.find?_eq_none]
    intro l hl
    simpa using hnone l hl
  have hdown : handleMouseDown s rect e promptResult = Outcome.done
      { s with isDrawing := true,
               lastPoint := some (e.clientX - rect.left, e.clientY - rect.top) } := by
    unfold handleMouseDown
    simp [htool, hfind]
  refine ⟨hdown, ?_, step_enters_stroking, fun _ _ _ _ => rfl,
    handleMouseDown_isDrawing_of_draw, handleMouseDown_isDrawing_of_not_draw,
    fun t r ev => (handleMouseMove_frame t r ev).1, fun t => ⟨rfl, rfl⟩⟩
  intro moves
  rw [hdown]
  exact run_moves_layers_of_no_active rect moves _ hnone

/-- Witness of C10 as amended, on the sample idle state: the press sets `isDrawing`, and the
layer list is the same after the press and two moves. -/
theorem press_without_active_layer_witness :
    idleDrawState.selectedTool = Tool.draw
    ∧ (∀ l ∈ idleDrawState.layers, idleDrawState.activeLayerId ≠ some l.id)
    ∧ handleMouseDown idleDrawState (Rect.mk 0 0) (MouseEvent.mk 5 5) none = Outcome.done
        { idleDrawState with
          isDrawing := true
          lastPoint := some ((MouseEvent.mk 5 5).clientX - (Rect.mk 0 0).left,
            (MouseEvent.mk 5 5).clientY - (Rect.mk 0 0).top) }
    ∧ (run (handleMouseDown idleDrawState (Rect.mk 0 0) (MouseEvent.mk 5 5) none).state
        ([MouseEvent.mk 6 6, MouseEvent.mk 7 7].map
          (fun e' => Action.mouseMove (Rect.mk 0 0) e'))).layers = idleDrawState.layers :=
  have h : ∀ l ∈ idleDrawState.layers, idleDrawState.activeLayerId ≠ some l.id := by decide
  ⟨rfl, h,
    (press_without_active_layer idleDrawState (Rect.mk 0 0) (MouseEvent.mk 5 5) none rfl h).1,
    (press_without_active_layer idleDrawState (Rect.mk 0 0) (MouseEvent.mk 5 5) none rfl h).2.1
      [MouseEvent.mk 6 6, MouseEvent.mk 7 7]⟩

/-! ## Renderable layers are an invariant of the editor

The first hypothesis of the compositor theorems, that every layer can be rendered without a
TypeError, holds initially and is kept by every action.  The second, that no heatmap raises a
SyntaxError, is not an invariant: a single pin under heatmap mode breaks it. -/

theorem renderable_startStroke (s : State) (x y : ℚ) (layer layer' : Layer)
    (h : startStroke s x y layer = Except.ok layer') (hr : layer.renderable = true) :
    layer'.renderable = true := by
  unfold startStroke at h
  split_ifs at h
  · cases hp : layer.paths with
    | none => simp [hp] at h
    | some paths =>
      simp [hp] at h
      subst h
      unfold Layer.renderable at hr ⊢
      cases ht : layer.type <;> simp [ht, hp] at hr ⊢
      · exact hr
      · exact hr
  · simp at h
    subst h
    exact hr

theorem renderable_extendStroke (s : State) (x y : ℚ) (layer layer' : Layer)
    (h : extendStroke s x y layer = Except.ok layer') (hr : layer.renderable = true) :
    layer'.renderable = true := by
  unfold extendStroke at h
  split_ifs at h
  · cases hp : layer.paths with
    | none => simp [hp] at h
    | some paths =>
      cases hlast : paths.getLast? with
      | none => simp [hp, hlast] at h
      | some cur =>
        simp [hp, hlast] at h
        subst h
        unfold Layer.renderable at hr ⊢
        cases ht : layer.type <;> simp [ht, hp] at hr ⊢
        · intro path hpath
          exact hr path (List.mem_of_mem_dropLast hpath)
        · exact hr
  · simp at h
    subst h
    exact hr

theorem renderable_appendPin (s : State) (x y : ℚ) (value : String) (layer : Layer)
    (hr : layer.renderable = true) : (appendPin s x y value layer).renderable = true := by
  unfold appendPin
  split_ifs
  · simp [Layer.renderable]
  · exact hr

/-- Every action of the editor keeps all layers renderable: the state after it, whether the
handler raised or not, has only renderable layers when the state before had. -/
theorem renderable_preserved (s : State)
    (h : ∀ l ∈ s.layers, l.renderable = true) :
    (∀ l ∈ State.initial.layers, l.renderable = true)
    ∧ (∀ now type, ∀ l ∈ (addLayer s now type).layers, l.renderable = true)
    ∧ (∀ picked now img, (∀ l ∈ picked, l.renderable = true) →
        ∀ l ∈ (handleFileUpload s picked now img).layers, l.renderable = true)
    ∧ (∀ value, ∀ l ∈ (changeOpacity s value).layers, l.renderable = true)
    ∧ (∀ layerId, ∀ l ∈ (toggleLayerVisibility s layerId).layers, l.renderable = true)
    ∧ (∀ layerId, ∀ l ∈ (deleteLayer s layerId).layers, l.renderable = true)
    ∧ (∀ targetId, ∀ l ∈ (handleDrop s targetId).layers, l.renderable = true)
    ∧ (∀ rect e promptResult,
        ∀ l ∈ (handleMouseDown s rect e promptResult).state.layers, l.renderable = true)
    ∧ (∀ rect e, ∀ l ∈ (handleMouseMove s rect e).state.layers, l.renderable = true)
    ∧ (∀ l ∈ (handleMouseUp s).layers, l.renderable = true) := by
  refine ⟨?_, ?_, ?_, ?_, ?_, ?_, ?_, ?_, ?_, h⟩
  · intro l hl
    simp [State.initial] at hl
  · intro now type l hl
    simp only [addLayer, List.mem_cons] at hl
    rcases hl with rfl | hl
    · cases type <;> simp [Layer.renderable]
    · exact h l hl
  · intro picked now img hp l hl
    simp only [handleFileUpload, List.mem_cons] at hl
    rcases hl with rfl | hl
    · rfl
    · exact hp l hl
  · intro value l hl
    simp only [changeOpacity, List.mem_map] at hl
    obtain ⟨l0, hl0, rfl⟩ := hl
    have := h l0 hl0
    split_ifs
    · simpa [Layer.renderable] using this
    · exact this
  · intro layerId l hl
    simp only [toggleLayerVisibility, List.mem_map] at hl
    obtain ⟨l0, hl0, rfl⟩ := hl
    have := h l0 hl0
    split_ifs
    · simpa [Layer.renderable] using this
    · exact this
  · intro layerId l hl
    simp only [deleteLayer] at hl
    exact h l (List.mem_of_mem_filter hl)
  · intro targetId l hl
    unfold handleDrop at hl
    split_ifs at hl
    · exact h l hl
    · simp only at hl
      cases hk : s.layers[spliceStart s.layers.length
          (findIndex (fun l => decide (s.draggedLayer = some l.id)) s.layers)]? with
      | none =>
        rw [hk] at hl
        exact h l (List.mem_of_mem_eraseIdx hl)
      | some removed =>
        rw [hk] at hl
        simp only at hl
        by_cases hle : spliceStart (s.layers.eraseIdx (spliceStart s.layers.length
            (findIndex (fun l => decide (s.draggedLayer = some l.id)) s.layers))).length
            (findIndex (fun l => decide (l.id = targetId)) s.layers)
            ≤ (s.layers.eraseIdx (spliceStart s.layers.length
            (findIndex (fun l => decide (s.draggedLayer = some l.id)) s.layers))).length
        · rcases (List.mem_insertIdx hle).mp hl with rfl | hl'
          · exact h _ (List.getElem?_mem hk)
          · exact h l (List.mem_of_mem_eraseIdx hl')
        · rw [List.insertIdx_of_length_lt _ _ _ (not_le.mp hle)] at hl
          exact h l (List.mem_of_mem_eraseIdx hl)
  · intro rect e promptResult l hl
    unfold handleMouseDown at hl
    cases htool : s.selectedTool with
    | move =>
      rw [htool] at hl
      exact h l hl
    | draw =>
      rw [htool] at hl
      simp only at hl
      cases hf : s.layers.find? (fun l => decide (s.activeLayerId = some l.id)) with
      | none =>
        rw [hf] at hl
        exact h l hl
      | some active =>
        rw [hf] at hl
        simp only at hl
        cases hm : mapThrowing (startStroke s (e.clientX - rect.left) (e.clientY - rect.top))
            s.layers with
        | error err =>
          rw [hm] at hl
          exact h l hl
        | ok ls =>
          rw [hm] at hl
          obtain ⟨l0, hl0, hs⟩ := mem_of_mapThrowing _ _ ls hm l hl
          exact renderable_startStroke s _ _ l0 l hs (h l0 hl0)
    | pin =>
      rw [htool] at hl
      cases promptResult with
      | none => exact h l hl
      | some value =>
        simp only at hl
        split_ifs at hl
        · simp only [Outcome.state, List.mem_map] at hl
          obtain ⟨l0, hl0, rfl⟩ := hl
          exact renderable_appendPin s _ _ value l0 (h l0 hl0)
        · exact h l hl
  · intro rect e l hl
    have key : ∀ s1 : State, (∀ l ∈ s1.layers, l.renderable = true) →
        ∀ l ∈ (match s.layers.find? (fun (l : Layer) => decide (l.type = LayerType.pins)) with
          | none => Outcome.done { s1 with hoveredPin := none }
          | some pinsLayer =>
            match pinsLayer.pins with
            | none => Outcome.threw JSError.typeError s1
            | some pins =>
              Outcome.done { s1 with
                hoveredPin := pins.find? (fun pin =>
                  hypotLessThan (pin.x - (e.clientX - rect.left))
                    (pin.y - (e.clientY - rect.top)) 10) }).state.layers,
          l.renderable = true := by
      intro s1 h1 l hl
      cases hf : s.layers.find? (fun l => decide (l.type = LayerType.pins)) with
      | none =>
        rw [hf] at hl
        exact h1 l hl
      | some pl =>
        rw [hf] at hl
        cases hpl : pl.pins with
        | none =>
          simp only [hpl] at hl
          exact h1 l hl
        | some pins =>
          simp only [hpl] at hl
          exact h1 l hl
    unfold handleMouseMove at hl
    dsimp only at hl
    by_cases hd : s.isDrawing = true ∧ s.selectedTool = Tool.draw
    · cases hm : mapThrowing (extendStroke s (e.clientX - rect.left) (e.clientY - rect.top))
          s.layers with
      | error err =>
        rw [if_pos hd] at hl
        simp only [hm] at hl
        exact h l hl
      | ok ls =>
        rw [if_pos hd] at hl
        simp only [hm] at hl
        refine key { s with layers := ls,
                            lastPoint := some (e.clientX - rect.left, e.clientY - rect.top) }
          ?_ l hl
        intro l' hl'
        obtain ⟨l0, hl0, hs⟩ := mem_of_mapThrowing _ _ ls hm l' hl'
        exact renderable_extendStroke s _ _ l0 l' hs (h l0 hl0)
    · rw [if_neg hd] at hl
      exact key s h l hl

/-! ## A draw press on a layer without `paths` -/

theorem startStroke_error (s : State) (x y : ℚ) (layer : Layer) (err : JSError)
    (h : startStroke s x y layer = Except.error err) : err = JSError.typeError := by
  unfold startStroke at h
  split_ifs at h
  cases hp : layer.paths with
  | none =>
    simp [hp] at h
    exact h.symm
  | some paths => simp [hp] at h

theorem extendStroke_error (s : State) (x y : ℚ) (layer : Layer) (err : JSError)
    (h : extendStroke s x y layer = Except.error err) : err = JSError.typeError := by
  unfold extendStroke at h
  split_ifs at h
  cases hp : layer.paths with
  | none =>
    simp [hp] at h
    exact h.symm
  | some paths =>
    cases hlast : paths.getLast? with
    | none =>
      simp [hp, hlast] at h
      exact h.symm
    | some cur => simp [hp, hlast] at h

/-- A press with the draw tool raises as soon as a layer of the active id has no `paths`; the
updates queued before, `isDrawing` and `lastPoint`, are all that is applied. -/
theorem handleMouseDown_raises_of_no_paths (s : State) (rect : Rect) (e : MouseEvent)
    (promptResult : Option String) (layer : Layer)
    (htool : s.selectedTool = Tool.draw) (hmem : layer ∈ s.layers)
    (hact : s.activeLayerId = some layer.id) (hp : layer.paths = none) :
    handleMouseDown s rect e promptResult = Outcome.threw JSError.typeError
      { s with isDrawing := true,
               lastPoint := some (e.clientX - rect.left, e.clientY - rect.top) } := by
  have hfind : (s.layers.find? (fun l => decide (s.activeLayerId = some l.id))).isSome = true := by
    rw [List.find?_isSome]
    exact ⟨layer, hmem, by simp [hact]⟩
  have hmap : mapThrowing (startStroke s (e.clientX - rect.left) (e.clientY - rect.top)) s.layers
      = Except.error JSError.typeError :=
    mapThrowing_error _ s.layers layer _ hmem (by simp [startStroke, hact, hp])
      (fun l _ err' hl => startStroke_error s _ _ l err' hl)
  unfold handleMouseDown
  cases hf : s.layers.find? (fun l => decide (s.activeLayerId = some l.id)) with
  | none => simp [hf] at hfind
  | some l => simp [htool, hmap]

/-- A move while `isDrawing` is set and the draw tool selected raises as soon as a layer of
the active id has no `paths`; no update is applied, the hovered pin included. -/
theorem handleMouseMove_raises_of_no_paths (s : State) (rect : Rect) (e : MouseEvent)
    (layer : Layer) (hd : s.isDrawing = true) (htool : s.selectedTool = Tool.draw)
    (hmem : layer ∈ s.layers) (hact : s.activeLayerId = some layer.id)
    (hp : layer.paths = none) :
    handleMouseMove s rect e = Outcome.threw JSError.typeError s := by
  have hmap : mapThrowing (extendStroke s (e.clientX - rect.left) (e.clientY - rect.top))
      s.layers = Except.error JSError.typeError :=
    mapThrowing_error _ s.layers layer _ hmem (by simp [extendStroke, hact, hp])
      (fun l _ err' hl => extendStroke_error s _ _ l err' hl)
  unfold handleMouseMove
  simp [hd, htool, hmap]

/-- C11, at the failing inputs.  After an image upload and the choice of the draw tool the
active layer is the image layer, a record without `paths`; a press then raises a TypeError
instead of starting a stroke: the layers are unchanged, `isDrawing` is set all the same, and
a move that follows raises as well.  The same happens when the image layer was first turned
into a pin-set layer by the pin tool, which leaves it without `paths`. -/
theorem draw_press_on_image_layer_raises :
    uploadedState.selectedTool = Tool.draw ∧ uploadedState.activeLayerId = some 1
    ∧ uploadedState.layers = [uploadedLayer] ∧ uploadedLayer.paths = none
    ∧ handleMouseDown uploadedState (Rect.mk 0 0) (MouseEvent.mk 5 5) none
        = Outcome.threw JSError.typeError
            { uploadedState with isDrawing := true, lastPoint := some (5 - 0, 5 - 0) }
    ∧ handleMouseMove { uploadedState with isDrawing := true, lastPoint := some (5 - 0, 5 - 0) }
          (Rect.mk 0 0) (MouseEvent.mk 6 6)
        = Outcome.threw JSError.typeError
            { uploadedState with isDrawing := true, lastPoint := some (5 - 0, 5 - 0) }
    ∧ pinnedImageState.selectedTool = Tool.draw ∧ pinnedImageState.activeLayerId = some 1
    ∧ pinnedImageState.layers = [pinnedImageLayer] ∧ pinnedImageLayer.paths = none
    ∧ handleMouseDown pinnedImageState (Rect.mk 0 0) (MouseEvent.mk 5 5) none
        = Outcome.threw JSError.typeError
            { pinnedImageState with isDrawing := true, lastPoint := some (5 - 0, 5 - 0) } := by
  have hup : uploadedState.layers = [uploadedLayer] := rfl
  have hpin : pinnedImageState.layers = [pinnedImageLayer] := rfl
  have hmemUp : uploadedLayer ∈ uploadedState.layers := by
    rw [hup]
    exact List.mem_singleton_self _
  have hmemPin : pinnedImageLayer ∈ pinnedImageState.layers := by
    rw [hpin]
    exact List.mem_singleton_self _
  refine ⟨rfl, rfl, hup, rfl, ?_, ?_, rfl, rfl, hpin, rfl, ?_⟩
  · exact handleMouseDown_raises_of_no_paths uploadedState (Rect.mk 0 0) (MouseEvent.mk 5 5)
      none uploadedLayer rfl hmemUp rfl rfl
  · exact handleMouseMove_raises_of_no_paths
      { uploadedState with isDrawing := true, lastPoint := some (5 - 0, 5 - 0) }
      (Rect.mk 0 0) (MouseEvent.mk 6 6) uploadedLayer rfl rfl hmemUp rfl rfl
  · exact handleMouseDown_raises_of_no_paths pinnedImageState (Rect.mk 0 0) (MouseEvent.mk 5 5)
      none pinnedImageLayer rfl hmemPin rfl rfl

/-! ## The colour of a rendered stroke -/

theorem strokeStyles_append (xs ys : List CanvasOp) :
    strokeStyles (xs ++ ys) = strokeStyles xs ++ strokeStyles ys := by
  induction xs with
  | nil => rfl
  | cons op rest ih => cases op <;> simp [strokeStyles, ih]

theorem strokeStyles_lineTo (path : List Point) :
    strokeStyles (path.map (fun point => CanvasOp.lineTo point.x point.y)) = [] := by
  induction path with
  | nil => rfl
  | cons p rest ih => simp [strokeStyles, ih]

/-- Whatever colours the points of the strokes carry, `drawLayers` assigns `#000000` to
`strokeStyle` once for each stroke of a drawing layer, and nothing else. -/
theorem strokeStyles_drawPaths (paths : List (List Point)) :
    ∀ ops, drawPaths paths = Except.ok ops →
      strokeStyles ops = paths.map (fun _ => "#000000") := by
  induction paths with
  | nil =>
    intro ops h
    simp [drawPaths] at h
    subst h
    rfl
  | cons path rest ih =>
    intro ops h
    cases path with
    | nil => simp [drawPaths, drawPath] at h
    | cons p0 more =>
      cases hrest : drawPaths rest with
      | error err => simp [drawPaths, drawPath, hrest] at h
      | ok restOps =>
        simp only [drawPaths, drawPath, hrest, Except.ok.injEq] at h
        subst h
        rw [strokeStyles_append, strokeStyles_append, strokeStyles_append, ih restOps hrest,
          strokeStyles_lineTo]
        simp [strokeStyles, pathColor]

/-- C12, at the failing input.  With the colour `#ff0000` selected, a press at (0,0) and a
move to (10,10) on a fresh drawing layer record a stroke whose press point carries no colour
and whose second point carries `#ff0000`; the redraw that follows runs to its end and
assigns `#000000`, not `#ff0000`, to `strokeStyle` for that stroke.  The same holds for any
strokes: every stroke of a drawing layer is rendered with `#000000`. -/
theorem recorded_colour_not_rendered :
    colouredStrokeState.currentColor = "#ff0000"
    ∧ colouredStrokeState.layers.map (fun l => l.paths)
        = [some [[Point.mk (0 - 0) (0 - 0) none,
                  Point.mk (10 - 0) (10 - 0) (some "#ff0000")]]]
    ∧ (∃ ops, drawLayers colouredStrokeState sampleCanvas = Except.ok ops ∧
        strokeStyles ops = ["#000000"])
    ∧ (∀ (paths : List (List Point)) (ops : List CanvasOp),
        drawPaths paths = Except.ok ops →
          strokeStyles ops = paths.map (fun _ => "#000000")) :=
  ⟨rfl, rfl, ⟨_, rfl, rfl⟩, strokeStyles_drawPaths⟩

/-! ## Redraws that break the compositing order or its alpha -/

/-- C1, at the failing inputs.  First, a visible pin-set layer at opacity 40 with pins of
values 1 and 2, heatmap mode on: the redraw runs to its end and paints the markers under
alpha 0.4, but the heatmap buffer of the same layer under alpha 0.7.  Second, the drawing
layer at index 0 above a visible pin-set layer with a single pin, heatmap mode on: the
redraw raises a SyntaxError while it builds the heatmap, so the visible layer at index 0 is
not rendered; with heatmap mode off the same layers are rendered, the drawing layer last. -/
theorem drawLayers_heatmap_breaks_compositing :
    fadedPins.visible = true ∧ fadedPins.opacity = 40
    ∧ (∃ ops, drawLayers fadedHeatmapState sampleCanvas = Except.ok ops ∧
        paints 1 ops =
          [(CanvasOp.fill, 40 / 100), (CanvasOp.stroke, 40 / 100),
           (CanvasOp.fill, 40 / 100), (CanvasOp.stroke, 40 / 100),
           (CanvasOp.drawBuffer
              [heatmapFill [Pin.mk 10 10 "1", Pin.mk 200 200 "2"] (Pin.mk 10 10 "1"),
               heatmapFill [Pin.mk 10 10 "1", Pin.mk 200 200 "2"] (Pin.mk 200 200 "2")] 0 0,
            7 / 10)])
    ∧ abortedRedrawState.layers = [sampleDrawing, singlePinLayer]
    ∧ sampleDrawing.visible = true ∧ singlePinLayer.visible = true
    ∧ drawLayers abortedRedrawState sampleCanvas = Except.error JSError.syntaxError
    ∧ (∃ before, drawLayers { abortedRedrawState with showHeatmap := false } sampleCanvas
        = Except.ok (before ++ CanvasOp.setGlobalAlpha ((sampleDrawing.opacity : ℚ) / 100)
            :: layerOps { abortedRedrawState with showHeatmap := false } sampleCanvas
                sampleDrawing)) := by
  refine ⟨rfl, rfl, ?_, rfl, rfl, rfl, ?_, ?_⟩
  · have hgen := generateHeatmap_of_finite [Pin.mk 10 10 "1", Pin.mk 200 200 "2"]
      (by simp [(heatmapFill_one_two 10 10 200 200).1, (heatmapFill_one_two 10 10 200 200).2,
        JSNum.isFinite])
    have hrender : renderLayer fadedHeatmapState sampleCanvas fadedPins = Except.ok
        (([Pin.mk 10 10 "1", Pin.mk 200 200 "2"].map (drawPin fadedHeatmapState)).flatten ++
          [CanvasOp.setGlobalAlpha (7 / 10),
           CanvasOp.drawBuffer ([Pin.mk 10 10 "1", Pin.mk 200 200 "2"].map
             (heatmapFill [Pin.mk 10 10 "1", Pin.mk 200 200 "2"])) 0 0,
           CanvasOp.setGlobalAlpha 1]) := by
      show (if fadedHeatmapState.showHeatmap = true ∧
            [Pin.mk 10 10 "1", Pin.mk 200 200 "2"].length > 0 then
          match generateHeatmap [Pin.mk 10 10 "1", Pin.mk 200 200 "2"] with
          | Except.error err => Except.error err
          | Except.ok overlay => Except.ok
              (([Pin.mk 10 10 "1", Pin.mk 200 200 "2"].map
                (drawPin fadedHeatmapState)).flatten ++ overlay)
        else Except.ok ([Pin.mk 10 10 "1", Pin.mk 200 200 "2"].map
          (drawPin fadedHeatmapState)).flatten) = _
      rw [if_pos ⟨rfl, by decide⟩, hgen]
    have hlayer : drawLayer fadedHeatmapState sampleCanvas fadedPins = Except.ok
        (CanvasOp.setGlobalAlpha ((fadedPins.opacity : ℚ) / 100) ::
          (([Pin.mk 10 10 "1", Pin.mk 200 200 "2"].map (drawPin fadedHeatmapState)).flatten ++
            [CanvasOp.setGlobalAlpha (7 / 10),
             CanvasOp.drawBuffer ([Pin.mk 10 10 "1", Pin.mk 200 200 "2"].map
               (heatmapFill [Pin.mk 10 10 "1", Pin.mk 200 200 "2"])) 0 0,
             CanvasOp.setGlobalAlpha 1])) := by
      have hv : fadedPins.visible = true := rfl
      simp only [drawLayer, hv, if_true, hrender]
    have hdraw : drawLayers fadedHeatmapState sampleCanvas = Except.ok
        ([CanvasOp.clearRect 0 0 sampleCanvas.width sampleCanvas.height] ++
          CanvasOp.setGlobalAlpha ((fadedPins.opacity : ℚ) / 100) ::
            (([Pin.mk 10 10 "1", Pin.mk 200 200 "2"].map
                (drawPin fadedHeatmapState)).flatten ++
              [CanvasOp.setGlobalAlpha (7 / 10),
               CanvasOp.drawBuffer ([Pin.mk 10 10 "1", Pin.mk 200 200 "2"].map
                 (heatmapFill [Pin.mk 10 10 "1", Pin.mk 200 200 "2"])) 0 0,
               CanvasOp.setGlobalAlpha 1])) := by
      show drawLayersLoop fadedHeatmapState sampleCanvas [fadedPins] _ = _
      simp only [drawLayersLoop, hlayer]
    refine ⟨_, hdraw, ?_⟩
    simp [drawPin, paints, CanvasOp.isPaint, assignGlobalAlpha, fadedHeatmapState,
      State.initial, fadedPins, samplePins]
    norm_num
  · have hgen := (generateHeatmap_single_five 5 5).2
    have hrender : renderLayer abortedRedrawState sampleCanvas singlePinLayer
        = Except.error JSError.syntaxError := by
      show (if abortedRedrawState.showHeatmap = true ∧ [Pin.mk 5 5 "5"].length > 0 then
          match generateHeatmap [Pin.mk 5 5 "5"] with
          | Except.error err => Except.error err
          | Except.ok overlay => Except.ok
              (([Pin.mk 5 5 "5"].map (drawPin abortedRedrawState)).flatten ++ overlay)
        else Except.ok ([Pin.mk 5 5 "5"].map (drawPin abortedRedrawState)).flatten) = _
      rw [if_pos ⟨rfl, by decide⟩, hgen]
    have hlayer : drawLayer abortedRedrawState sampleCanvas singlePinLayer
        = Except.error JSError.syntaxError := by
      have hv : singlePinLayer.visible = true := rfl
      simp only [drawLayer, hv, if_true, hrender]
    show drawLayersLoop abortedRedrawState sampleCanvas [singlePinLayer, sampleDrawing] _ = _
    simp only [drawLayersLoop, hlayer]
  · have hsafe : ∀ l ∈ ({ abortedRedrawState with showHeatmap := false } : State).layers,
        l.visible = true → l.renderable = true ∧
          l.heatmapSafe ({ abortedRedrawState with showHeatmap := false } : State).showHeatmap
            = true := by
      decide
    obtain ⟨ops, hops⟩ := drawLayers_ok_of_renderable
      { abortedRedrawState with showHeatmap := false } sampleCanvas hsafe
    obtain ⟨before, hbefore⟩ := drawLayers_ends_with_top
      { abortedRedrawState with showHeatmap := false } sampleCanvas sampleDrawing
      [singlePinLayer] ops rfl rfl hops
    exact ⟨before, by rw [hops, hbefore]⟩

/-! ## A move that raises before the hover detection -/

/-- C7, at the failing input.  After a layer is added, a pin of value 1 placed on it at
(10,10), an image uploaded, the draw tool selected and the canvas pressed, `isDrawing` is set
and the active layer, the image layer, has no `paths`.  A move to (10,10) then raises a
TypeError in its drawing part and applies no update: the hovered pin stays none although the
pin of the first pin-set layer is at distance 0 from the pointer.  In the same state without
`isDrawing` the same move hovers that pin. -/
theorem hover_not_updated_when_move_raises :
    hoverBlockedState.layers = [hoverImageLayer, hoverPinLayer]
    ∧ hoverBlockedState.activeLayerId = some 2
    ∧ hoverBlockedState.selectedTool = Tool.draw
    ∧ hoverBlockedState.isDrawing = true
    ∧ hoverBlockedState.hoveredPin = none
    ∧ hoverPinLayer.pins = some [Pin.mk (10 - 0) (10 - 0) "1"]
    ∧ hypotLessThan ((10 - 0) - (10 - 0)) ((10 - 0) - (10 - 0)) 10 = true
    ∧ handleMouseMove hoverBlockedState (Rect.mk 0 0) (MouseEvent.mk 10 10)
        = Outcome.threw JSError.typeError hoverBlockedState
    ∧ (∃ s', handleMouseMove { hoverBlockedState with isDrawing := false } (Rect.mk 0 0)
          (MouseEvent.mk 10 10) = Outcome.done s' ∧
        s'.hoveredPin = some (Pin.mk (10 - 0) (10 - 0) "1")) := by
  have hl : hoverBlockedState.layers = [hoverImageLayer, hoverPinLayer] := rfl
  have hnear : hypotLessThan ((10 - 0) - (10 - 0)) ((10 - 0) - (10 - 0)) 10 = true := by
    simp [hypotLessThan]
  refine ⟨hl, rfl, rfl, rfl, rfl, rfl, hnear, ?_, ?_⟩
  · exact handleMouseMove_raises_of_no_paths hoverBlockedState (Rect.mk 0 0)
      (MouseEvent.mk 10 10) hoverImageLayer rfl rfl
      (by rw [hl]; exact List.mem_cons_self _ _) rfl rfl
  · obtain ⟨s', hmove, hhover⟩ := handleMouseMove_hover
      { hoverBlockedState with isDrawing := false } (Rect.mk 0 0) (MouseEvent.mk 10 10)
      (fun h => by cases h) (by
        intro l hl' _
        have hmem : l = hoverImageLayer ∨ l = hoverPinLayer := by
          have hl'' : l ∈ [hoverImageLayer, hoverPinLayer] := hl'
          simpa using hl''
        rcases hmem with rfl | rfl
        · rename_i ht
          cases ht
        · rfl)
    refine ⟨s', hmove, ?_⟩
    rw [hhover]
    show List.find? _ [Pin.mk (10 - 0) (10 - 0) "1"] = _
    simp [List.find?, hypotLessThan]

end MapEditor
